import Mathlib

/-!
Verification of the X2J transformation pipeline (vehicle service records →
charging-optimization run document) against its natural-language specification.

The Python sources are shallowly embedded:
* timestamps (`datetime` values) are integers counting microseconds from the
  proleptic Gregorian origin used by `civilFromDays` (day 0 = 1970-01-01);
* Python `float` arithmetic is modelled over `ℚ`;
* fallible operations return `Option`/`Except`;
* `pandas` dataframes become lists of records, `sort_values` becomes a
  comparison sort on the same key.
-/

namespace X2J

/-! ## Date-time model (`src/utils.py`) -/

/-- Microseconds per second. -/
def usPerSec : Int := 1000000

/-- Microseconds per day. -/
def usPerDay : Int := 86400000000

/-- Microseconds per minute. -/
def usPerMin : Int := 60000000

/-- `datetime.date()`: the civil day a timestamp falls in (floor division,
matching Python's all-positive datetime range). -/
def pydate (t : Int) : Int := t.ediv usPerDay

/-- `datetime.microsecond`: the sub-second microsecond component. -/
def pymicro (t : Int) : Int := t.emod usPerSec

/-- Convert a day number (0 = 1970-01-01) to a civil `(year, month, day)`
triple; standard Euclidean-affine civil-from-days computation. -/
def civilFromDays (z0 : Int) : Int × Int × Int :=
  let z := z0 + 719468
  let era : Int := z.ediv 146097
  let doe : Int := z - era * 146097
  let yoe : Int := (doe - doe.ediv 1460 + doe.ediv 36524 - doe.ediv 146096).ediv 365
  let y : Int := yoe + era * 400
  let doy : Int := doe - (365 * yoe + yoe.ediv 4 - yoe.ediv 100)
  let mp : Int := (5 * doy + 2).ediv 153
  let d : Int := doy - (153 * mp + 2).ediv 5 + 1
  let m : Int := mp + (if mp < 10 then 3 else -9)
  (y + (if m ≤ 2 then 1 else 0), m, d)

/-- Zero-pad the decimal rendering of a nonnegative integer to `w` digits. -/
def padNum (w : Nat) (n : Int) : String :=
  let s := toString n.toNat
  let pad := w - s.length
  String.mk (List.replicate pad '0') ++ s

/-- `datetime.isoformat(timespec="seconds")` on a microsecond timestamp whose
sub-second part has already been cleared: `YYYY-MM-DDTHH:MM:SS`. -/
def fmtIsoSeconds (t : Int) : String :=
  let day := pydate t
  let rest := (t - day * usPerDay).ediv usPerSec
  let ymd := civilFromDays day
  let h := rest.ediv 3600
  let mi := (rest.emod 3600).ediv 60
  let s := rest.emod 60
  padNum 4 ymd.1 ++ "-" ++ padNum 2 ymd.2.1 ++ "-" ++ padNum 2 ymd.2.2 ++ "T" ++
    padNum 2 h ++ ":" ++ padNum 2 mi ++ ":" ++ padNum 2 s

/-- `utils.isoformat_z`: clear the microsecond component, format with second
precision and append a literal `Z`. -/
def isoformat_z (t : Int) : String :=
  fmtIsoSeconds (t - pymicro t) ++ "Z"

/-! ## Date-bound validator (`validator.validate_optim_dates`) -/

/-- `validator.validate_optim_dates`: `debut` must be strictly earlier than the
minimum `jourDep` and `fin` strictly later than the maximum; otherwise a
`ValueError` is raised (modelled as `Except.error`). -/
def validate_optim_dates (debut fin minJour maxJour : Int) : Except String Unit :=
  if debut ≥ minJour then .error "debutOptim must be earlier than first jourDep"
  else if fin ≤ maxJour then .error "finOptim must be later than last jourDep"
  else .ok ()

/-! ## Lookup tables and the row enricher (`src/transformer.py`) -/

/-- A lookup table keyed by `(projection, model)`; `dict.get` with default is
modelled by first-match association lookup. -/
def LTable : Type := List ((Int × String) × ℚ)

/-- `dict.get(key, default)` on a lookup table. -/
def tblGet (tbl : LTable) (proj : Int) (model : String) (dflt : ℚ) : ℚ :=
  match List.lookup (proj, model) tbl with
  | some v => v
  | none => dflt

/-- Python `str.strip()`: remove leading and trailing whitespace. -/
def pyStrip (s : String) : String :=
  String.mk (((s.toList.dropWhile Char.isWhitespace).reverse.dropWhile Char.isWhitespace).reverse)

/-- One service-record row, with the fields used by the transformer: vehicle
identifier (`newIdVeh`), model code (`tVeh`), departure timestamp (`hDep`) and
travelled distance (`dist`, `none` when `float(...)` would fail). -/
structure SvcRow where
  veh : String
  dep : Int
  tVeh : String
  dist : Option ℚ
deriving DecidableEq, Repr

/-- The sort key order of `sort_values([vehicule_col, start_col])`:
lexicographic on (vehicle identifier, departure time). -/
def RowLe (r s : SvcRow) : Prop :=
  r.veh < s.veh ∨ (r.veh = s.veh ∧ r.dep ≤ s.dep)

instance : DecidableRel RowLe := fun r s => by
  unfold RowLe; infer_instance

instance : IsTotal SvcRow RowLe := by
  constructor
  intro a b
  rcases lt_trichotomy a.veh b.veh with h | h | h
  · exact Or.inl (Or.inl h)
  · rcases le_total a.dep b.dep with hd | hd
    · exact Or.inl (Or.inr ⟨h, hd⟩)
    · exact Or.inr (Or.inr ⟨h.symm, hd⟩)
  · exact Or.inr (Or.inl h)

instance : IsTrans SvcRow RowLe := by
  constructor
  rintro a b c (hab | ⟨hab, hd⟩) (hbc | ⟨hbc, hd'⟩)
  · exact Or.inl (lt_trans hab hbc)
  · exact Or.inl (hbc ▸ hab)
  · exact Or.inl (hab ▸ hbc)
  · exact Or.inr ⟨hab.trans hbc, hd.trans hd'⟩

/-- `DataFrame.sort_values([vehicule_col, start_col])` — a sort by
(vehicle, departure). -/
def sortRows (rows : List SvcRow) : List SvcRow :=
  List.insertionSort RowLe rows

/-- SOC after one service, exactly as the body of the `compute_soc` loop:
consumption and capacity looked up under `(projection, strip(model))` with
default `0.0`, unparsable distance replaced by `0.0`, `delta` zero when the
capacity is falsy, result clamped at zero from below. -/
def socRow (conso capa : LTable) (projection : Int) (socCible : ℚ) (r : SvcRow) : ℚ :=
  let modele := pyStrip r.tVeh
  let cons := tblGet conso projection modele 0
  let capacite := tblGet capa projection modele 0
  let dist := r.dist.getD 0
  let delta := if capacite ≠ 0 then cons * dist / capacite * 100 else 0
  max (socCible - delta) 0

/-- `transformer.compute_soc`: sort by (vehicle, departure) and attach to every
row its `soc_retour` value; each row is computed independently from the single
run-wide `soc_cible`.  The capacity table is always supplied explicitly (the
source's `None` default loads the same mapping from an external file). -/
def compute_soc (conso capa : LTable) (projection : Int) (socCible : ℚ)
    (rows : List SvcRow) : List (SvcRow × ℚ) :=
  (sortRows rows).map (fun r => (r, socRow conso capa projection socCible r))

/-- First following row of the same vehicle group: `groupby(veh).shift(-1)`
pairs each row with the next row of equal vehicle identifier further down the
frame. -/
def nextSame (r : SvcRow) (rest : List SvcRow) : Option Int :=
  (rest.find? (fun s => s.veh = r.veh)).map (·.dep)

/-- Attach to every row the departure time of the next row (in list order)
sharing its vehicle identifier. -/
def withNext : List SvcRow → List (SvcRow × Option Int)
  | [] => []
  | r :: rest => (r, nextSame r rest) :: withNext rest

/-- `transformer.add_next_service_time`: sort by (vehicle, departure) and add
the per-group shifted departure column. -/
def add_next_service_time (rows : List SvcRow) : List (SvcRow × Option Int) :=
  withNext (sortRows rows)

end X2J

namespace X2J

/-! ## Theorems: date-bound validator -/

/-- C5: `validate_optim_dates` raises a range error if and only if the
optimization window does not strictly contain the observed scheduling window;
when `start < observed_min` and `end > observed_max` it returns normally. -/
theorem validate_optim_dates_iff (debut fin minJour maxJour : Int) :
    ((∃ e, validate_optim_dates debut fin minJour maxJour = .error e) ↔
      ¬(debut < minJour ∧ fin > maxJour)) ∧
    (debut < minJour ∧ fin > maxJour →
      validate_optim_dates debut fin minJour maxJour = .ok ()) := by
  unfold validate_optim_dates
  constructor
  · constructor
    · rintro ⟨e, he⟩ ⟨h1, h2⟩
      rw [if_neg (by omega), if_neg (by omega)] at he
      exact Except.noConfusion he
    · intro h
      by_cases h1 : debut ≥ minJour
      · exact ⟨_, if_pos h1⟩
      · refine ⟨"finOptim must be later than last jourDep", ?_⟩
        rw [if_neg h1, if_pos (by omega)]
  · rintro ⟨h1, h2⟩
    rw [if_neg (by omega), if_neg (by omega)]

end X2J

namespace X2J

/-! ## Theorems: row enricher SOC computation -/

/-- C1: every row of `compute_soc` output carries
`soc_after = max(target_soc - delta, 0)` with
`delta = conso(projection, model) * distance / capacity(projection, model) * 100`
when the looked-up capacity is nonzero and `delta = 0` otherwise — a value
depending only on that row and the run-wide target, not on other rows. -/
theorem compute_soc_spec (conso capa : LTable) (projection : Int) (socCible : ℚ)
    (rows : List SvcRow) (p : SvcRow × ℚ)
    (hp : p ∈ compute_soc conso capa projection socCible rows) :
    p.2 = max (socCible -
        (if tblGet capa projection (pyStrip p.1.tVeh) 0 ≠ 0 then
          tblGet conso projection (pyStrip p.1.tVeh) 0 * p.1.dist.getD 0 /
            tblGet capa projection (pyStrip p.1.tVeh) 0 * 100
        else 0)) 0 := by
  unfold compute_soc at hp
  obtain ⟨r, _, rfl⟩ := List.mem_map.mp hp
  rfl

/-- Witness for C1, realising the spec's round-trip numbers: with
`capacity = 1000`, `consumption = 1.0`, `target = 100`, a distance of 10 gives
`soc_after = 99`, a distance of 20 gives `98`, and with capacity 0 the target
is returned unchanged. -/
theorem compute_soc_spec_witness :
    ((⟨"A", 1, "P", some 10⟩, (99 : ℚ)) ∈
        compute_soc [((0, "P"), 1)] [((0, "P"), 1000)] 0 100 [⟨"A", 1, "P", some 10⟩]) ∧
    (99 : ℚ) = max ((100 : ℚ) -
        (if tblGet [((0, "P"), 1000)] 0 (pyStrip "P") 0 ≠ 0 then
          tblGet [((0, "P"), 1)] 0 (pyStrip "P") 0 * (Option.getD (some 10) 0) /
            tblGet [((0, "P"), 1000)] 0 (pyStrip "P") 0 * 100
        else 0)) 0 ∧
    (compute_soc [((0, "P"), 1)] [((0, "P"), 1000)] 0 100 [⟨"A", 1, "P", some 20⟩] =
      [(⟨"A", 1, "P", some 20⟩, 98)]) ∧
    (compute_soc [((0, "P"), 1)] [] 0 100 [⟨"A", 1, "P", some 10⟩] =
      [(⟨"A", 1, "P", some 10⟩, 100)]) := by
  have hP : pyStrip "P" = "P" := by decide
  have hc1 : List.lookup ((0 : Int), "P") [(((0 : Int), "P"), (1 : ℚ))] = some 1 := by decide
  have hk1 : List.lookup ((0 : Int), "P") [(((0 : Int), "P"), (1000 : ℚ))] = some 1000 := by
    decide
  have h99 : socRow [((0, "P"), 1)] [((0, "P"), 1000)] 0 100 ⟨"A", 1, "P", some 10⟩ = 99 := by
    simp only [socRow, hP, tblGet, hc1, hk1, Option.getD]
    norm_num
  have h98 : socRow [((0, "P"), 1)] [((0, "P"), 1000)] 0 100 ⟨"A", 1, "P", some 20⟩ = 98 := by
    simp only [socRow, hP, tblGet, hc1, hk1, Option.getD]
    norm_num
  have h100 : socRow [((0, "P"), 1)] [] 0 100 ⟨"A", 1, "P", some 10⟩ = 100 := by
    simp only [socRow, hP, tblGet, hc1, List.lookup, Option.getD]
    norm_num
  have hmem : (⟨"A", 1, "P", some 10⟩, (99 : ℚ)) ∈
      compute_soc [((0, "P"), 1)] [((0, "P"), 1000)] 0 100 [⟨"A", 1, "P", some 10⟩] := by
    rw [show compute_soc [((0, "P"), 1)] [((0, "P"), 1000)] 0 100 [⟨"A", 1, "P", some 10⟩] =
        [(⟨"A", 1, "P", some 10⟩,
          socRow [((0, "P"), 1)] [((0, "P"), 1000)] 0 100 ⟨"A", 1, "P", some 10⟩)] from rfl,
      h99]
    exact List.mem_singleton.mpr rfl
  refine ⟨hmem, compute_soc_spec _ _ _ _ _ _ hmem, ?_, ?_⟩
  · rw [show compute_soc [((0, "P"), 1)] [((0, "P"), 1000)] 0 100 [⟨"A", 1, "P", some 20⟩] =
        [(⟨"A", 1, "P", some 20⟩,
          socRow [((0, "P"), 1)] [((0, "P"), 1000)] 0 100 ⟨"A", 1, "P", some 20⟩)] from rfl,
      h98]
  · rw [show compute_soc [((0, "P"), 1)] [] 0 100 [⟨"A", 1, "P", some 10⟩] =
        [(⟨"A", 1, "P", some 10⟩,
          socRow [((0, "P"), 1)] [] 0 100 ⟨"A", 1, "P", some 10⟩)] from rfl,
      h100]

/-! ## Theorems: next-service time -/

theorem withNext_get? (l : List SvcRow) (i : Nat) (r : SvcRow) (nx : Option Int)
    (h : (withNext l).get? i = some (r, nx)) :
    l.get? i = some r ∧ nx = nextSame r (l.drop (i + 1)) := by
  induction l generalizing i with
  | nil => simp [withNext] at h
  | cons a rest ih =>
    cases i with
    | zero =>
      simp only [withNext, List.get?] at h
      obtain ⟨h1, h2⟩ := Prod.mk.injEq .. ▸ (Option.some.injEq _ _ ▸ h)
      subst h1
      simpa using h2.symm
    | succ j =>
      simp only [withNext, List.get?] at h
      exact ih j h

theorem withNext_map_fst (l : List SvcRow) : (withNext l).map Prod.fst = l := by
  induction l with
  | nil => rfl
  | cons a rest ih => simp [withNext, ih]

end X2J

namespace X2J

theorem rowLe_veh_le {a b : SvcRow} (h : RowLe a b) : a.veh ≤ b.veh := by
  rcases h with h | ⟨h, _⟩
  · exact le_of_lt h
  · exact le_of_eq h

theorem nextSame_none_of_sorted (l : List SvcRow) (hs : l.Pairwise RowLe)
    (i : Nat) (r s : SvcRow) (hr : l.get? i = some r) (h1 : l.get? (i + 1) = some s)
    (hne : s.veh ≠ r.veh) : nextSame r (l.drop (i + 1)) = none := by
  have hrs : RowLe r s := by
    rw [List.get?_eq_getElem?] at hr h1
    obtain ⟨hi, hri⟩ := List.getElem?_eq_some.mp hr
    obtain ⟨hi1, hsi⟩ := List.getElem?_eq_some.mp h1
    have := List.pairwise_iff_getElem.mp hs i (i + 1) hi hi1 (by omega)
    rwa [hri, hsi] at this
  have hlt : r.veh < s.veh := by
    rcases hrs with h | ⟨h, _⟩
    · exact h
    · exact absurd h.symm hne
  rw [nextSame, Option.map_eq_none', List.find?_eq_none]
  intro x hx
  rw [List.mem_iff_get?] at hx
  obtain ⟨j, hj⟩ := hx
  rw [List.get?_drop] at hj
  have hx' : r.veh < x.veh := by
    rcases Nat.eq_zero_or_pos j with hj0 | hjp
    · subst hj0
      rw [h1] at hj
      cases hj
      exact hlt
    · rw [List.get?_eq_getElem?] at h1 hj
      obtain ⟨hi1, hsi⟩ := List.getElem?_eq_some.mp h1
      obtain ⟨hij, hxi⟩ := List.getElem?_eq_some.mp hj
      have := List.pairwise_iff_getElem.mp hs (i + 1) (i + 1 + j) hi1 hij (by omega)
      rw [hsi, hxi] at this
      exact lt_of_lt_of_le hlt (rowLe_veh_le this)
  simp only [decide_eq_true_eq]
  exact fun he => absurd he (ne_of_gt hx')

/-- C4: after the row enricher sorts by (vehicle identifier, departure time)
ascending, each row's next-service time is the departure time of the
immediately following row when that row belongs to the same vehicle group, and
is absent (`none`, not an error) when the following row belongs to another
vehicle or the row is the last one. -/
theorem add_next_service_time_spec (rows : List SvcRow) :
    (add_next_service_time rows).Pairwise (fun p q => RowLe p.1 q.1) ∧
    ∀ i r nx, (add_next_service_time rows).get? i = some (r, nx) →
      (∀ s y, (add_next_service_time rows).get? (i + 1) = some (s, y) →
          nx = if s.veh = r.veh then some s.dep else none) ∧
      ((add_next_service_time rows).get? (i + 1) = none → nx = none) := by
  have hs : (sortRows rows).Pairwise RowLe := List.sorted_insertionSort RowLe rows
  constructor
  · have : ((add_next_service_time rows).map Prod.fst).Pairwise RowLe := by
      rw [add_next_service_time, withNext_map_fst]
      exact hs
    rw [List.pairwise_map] at this
    exact this
  · intro i r nx h
    obtain ⟨hget, hnx⟩ := withNext_get? (sortRows rows) i r nx h
    constructor
    · intro s y h1
      obtain ⟨hget1, _⟩ := withNext_get? (sortRows rows) (i + 1) s y h1
      by_cases hveh : s.veh = r.veh
      · rw [if_pos hveh, hnx]
        have hlen : i + 1 < (sortRows rows).length := by
          rw [List.get?_eq_getElem?] at hget1
          exact (List.getElem?_eq_some.mp hget1).1
        have hdrop : (sortRows rows).drop (i + 1) =
            (sortRows rows)[i + 1] :: (sortRows rows).drop (i + 2) :=
          List.drop_eq_getElem_cons hlen
        have hsel : (sortRows rows)[i + 1] = s := by
          rw [List.get?_eq_getElem?] at hget1
          exact (List.getElem?_eq_some.mp hget1).2
        rw [hdrop, hsel, nextSame, List.find?_cons_of_pos _ (by simp [hveh])]
        rfl
      · rw [if_neg hveh, hnx]
        exact nextSame_none_of_sorted (sortRows rows) hs i r s hget hget1 hveh
    · intro h1
      have hlen : (sortRows rows).length ≤ i + 1 := by
        have hlw : (add_next_service_time rows).length = (sortRows rows).length := by
          rw [← withNext_map_fst (sortRows rows), List.length_map]
          rfl
        have := List.get?_eq_none.mp h1
        omega
      rw [hnx, List.drop_eq_nil_of_le hlen]
      rfl

/-- Witness for C4 at a concrete three-row list (two vehicles): the sorted
output pairs row "A"-dep-1 with next-service 2, and rows "A"-dep-2 / "B"-dep-0
have no next-service time. -/
theorem add_next_service_time_spec_witness :
    ((add_next_service_time [⟨"A", 2, "", none⟩, ⟨"A", 1, "", none⟩, ⟨"B", 0, "", none⟩]).get? 0 =
        some (⟨"A", 1, "", none⟩, some 2)) ∧
    ((∀ s y,
        (add_next_service_time
            [⟨"A", 2, "", none⟩, ⟨"A", 1, "", none⟩, ⟨"B", 0, "", none⟩]).get? (0 + 1) =
          some (s, y) →
        (some 2 : Option Int) = if s.veh = (⟨"A", 1, "", none⟩ : SvcRow).veh then some s.dep
          else none) ∧
      ((add_next_service_time
          [⟨"A", 2, "", none⟩, ⟨"A", 1, "", none⟩, ⟨"B", 0, "", none⟩]).get? (0 + 1) = none →
        (some 2 : Option Int) = none)) := by
  have hAB : ("A" : String) < "B" := by
    rw [String.lt_iff_toList_lt]
    decide
  have h23 : RowLe ⟨"A", 1, "", none⟩ ⟨"B", 0, "", none⟩ := Or.inl hAB
  have h13 : RowLe ⟨"A", 2, "", none⟩ ⟨"B", 0, "", none⟩ := Or.inl hAB
  have hn12 : ¬RowLe (⟨"A", 2, "", none⟩ : SvcRow) ⟨"A", 1, "", none⟩ := by
    rintro (h | ⟨_, h⟩)
    · exact absurd h (lt_irrefl _)
    · exact absurd h (by norm_num)
  have hsort : sortRows [⟨"A", 2, "", none⟩, ⟨"A", 1, "", none⟩, ⟨"B", 0, "", none⟩] =
      [⟨"A", 1, "", none⟩, ⟨"A", 2, "", none⟩, ⟨"B", 0, "", none⟩] := by
    have s2 : List.orderedInsert RowLe ⟨"A", 1, "", none⟩ [⟨"B", 0, "", none⟩] =
        [⟨"A", 1, "", none⟩, ⟨"B", 0, "", none⟩] := by
      rw [List.orderedInsert, if_pos h23]
    have s3 : List.orderedInsert RowLe ⟨"A", 2, "", none⟩
          [⟨"A", 1, "", none⟩, ⟨"B", 0, "", none⟩] =
        [⟨"A", 1, "", none⟩, ⟨"A", 2, "", none⟩, ⟨"B", 0, "", none⟩] := by
      rw [List.orderedInsert, if_neg hn12, List.orderedInsert, if_pos h13]
    rw [sortRows, List.insertionSort, List.insertionSort, List.insertionSort,
      List.insertionSort, show List.orderedInsert RowLe (⟨"B", 0, "", none⟩ : SvcRow) [] =
        [⟨"B", 0, "", none⟩] from rfl, s2, s3]
  have hout : add_next_service_time [⟨"A", 2, "", none⟩, ⟨"A", 1, "", none⟩,
      ⟨"B", 0, "", none⟩] =
      [(⟨"A", 1, "", none⟩, some 2), (⟨"A", 2, "", none⟩, none), (⟨"B", 0, "", none⟩, none)] := by
    rw [add_next_service_time, hsort]
    decide
  constructor
  · rw [hout]
    rfl
  · exact (add_next_service_time_spec
      [⟨"A", 2, "", none⟩, ⟨"A", 1, "", none⟩, ⟨"B", 0, "", none⟩]).2 0
      ⟨"A", 1, "", none⟩ (some 2) (by rw [hout]; rfl)

end X2J

namespace X2J

/-! ## Record mapper: `debutOptim` clamp (`mapper.map_record`, configuration) -/

/-- The microsecond rounding performed on `debut_dt`: add one second when the
microsecond component is at least 500000, then clear the microseconds
(`replace(microsecond=0)`). -/
def roundHalfUpSeconds (t : Int) : Int :=
  let t1 := if pymicro t ≥ 500000 then t + usPerSec else t
  t1 - pymicro t1

/-- `datetime.combine(bound, datetime.max.time())`: the last representable
microsecond (23:59:59.999999) of civil day `d`. -/
def combineMaxTime (d : Int) : Int := d * usPerDay + (usPerDay - 1)

/-- The `debutOptim` datetime computed by `map_record` when a start bound is
supplied: clamp to `(min_jour - 3 days).date()` at end-of-day when the parsed
start's date is earlier, then round microseconds to the nearest second. -/
def debutOptimDt (minJour startDt : Int) : Int :=
  let bound := pydate (minJour - 3 * usPerDay)
  let d1 := if pydate startDt < bound then combineMaxTime bound else startDt
  roundHalfUpSeconds d1

/-- `configuration["debutOptim"] = isoformat_z(debut_dt)`. -/
def debutOptim (minJour startDt : Int) : String :=
  isoformat_z (debutOptimDt minJour startDt)

/-- C2 counterexample: with the minimum observed departure at day 20076
(2024-12-19) the floor date is day 20073 (2024-12-16); a requested start at day
20070 (2024-12-13) is earlier than the floor, and the produced `debutOptim` is
`2024-12-17T00:00:00Z` — the day after the floor at midnight — not the floor at
23:59:59 (`2024-12-16T23:59:59Z`) that the claim states, because the 23:59:59.999999
end-of-day value is itself rounded up to the next second. -/
theorem debutOptim_counterexample :
    pydate (20070 * usPerDay) < pydate (20076 * usPerDay - 3 * usPerDay) ∧
    debutOptim (20076 * usPerDay) (20070 * usPerDay) = "2024-12-17T00:00:00Z" ∧
    isoformat_z (20073 * usPerDay + 86399 * usPerSec) = "2024-12-16T23:59:59Z" ∧
    debutOptim (20076 * usPerDay) (20070 * usPerDay) ≠
      isoformat_z (20073 * usPerDay + 86399 * usPerSec) := by
  refine ⟨by decide, by decide, by decide, by decide⟩

/-- C2 (amended): when a start bound is supplied and the parsed start's date is
earlier than `floor = (min observed departure - 3 days).date()`, `debutOptim`
is the day **after** the floor at 00:00:00 (the floor's 23:59:59.999999
end-of-day rounds up to the next second); a start not earlier than the floor
is kept verbatim up to rounding microseconds to the nearest second (≥ 500 ms
rounds up); in both cases the value is formatted with second precision and a
trailing literal `Z`. -/
theorem roundHalfUpSeconds_combineMaxTime (d : Int) :
    roundHalfUpSeconds (combineMaxTime d) = (d + 1) * usPerDay := by
  have h1 : combineMaxTime d = (d * 86400 + 86399) * 1000000 + 999999 := by
    simp only [combineMaxTime, usPerDay]
    ring
  have e1 : (((d * 86400 + 86399) * 1000000 + 999999 : Int)).emod 1000000 = 999999 := by
    rw [show ((d * 86400 + 86399) * 1000000 + 999999 : Int) =
      999999 + 1000000 * (d * 86400 + 86399) from by ring]
    show (999999 + 1000000 * (d * 86400 + 86399)) % 1000000 = 999999
    rw [Int.add_mul_emod_self_left]
    decide
  have e2 : (((d * 86400 + 86399) * 1000000 + 999999 + 1000000 : Int)).emod 1000000 =
      999999 := by
    rw [show ((d * 86400 + 86399) * 1000000 + 999999 + 1000000 : Int) =
      1999999 + 1000000 * (d * 86400 + 86399) from by ring]
    show (1999999 + 1000000 * (d * 86400 + 86399)) % 1000000 = 999999
    rw [Int.add_mul_emod_self_left]
    decide
  simp only [roundHalfUpSeconds, pymicro, usPerSec, h1, e1]
  rw [if_pos (by omega), e2]
  simp only [usPerDay]
  ring

theorem debutOptim_spec (minJour startDt : Int) :
    (pydate startDt < pydate (minJour - 3 * usPerDay) →
      debutOptim minJour startDt =
        isoformat_z ((pydate (minJour - 3 * usPerDay) + 1) * usPerDay)) ∧
    (¬pydate startDt < pydate (minJour - 3 * usPerDay) →
      debutOptim minJour startDt = isoformat_z (roundHalfUpSeconds startDt)) ∧
    debutOptim minJour startDt =
      fmtIsoSeconds (debutOptimDt minJour startDt -
        pymicro (debutOptimDt minJour startDt)) ++ "Z" := by
  refine ⟨?_, ?_, rfl⟩
  · intro h
    simp only [debutOptim, debutOptimDt]
    rw [if_pos h]
    exact congrArg isoformat_z (roundHalfUpSeconds_combineMaxTime _)
  · intro h
    simp only [debutOptim, debutOptimDt]
    rw [if_neg h]

/-- Witness for C2's amended theorem: the clamped branch applied at the
counterexample input. -/
theorem debutOptim_spec_witness :
    pydate (20070 * usPerDay) < pydate (20076 * usPerDay - 3 * usPerDay) ∧
    debutOptim (20076 * usPerDay) (20070 * usPerDay) =
      isoformat_z ((pydate (20076 * usPerDay - 3 * usPerDay) + 1) * usPerDay) :=
  ⟨by decide, (debutOptim_spec (20076 * usPerDay) (20070 * usPerDay)).1 (by decide)⟩

end X2J

namespace X2J

/-! ## Record mapper: `debutService` (`mapper.map_record`, vehicle block) -/

/-- `vehicule["debutService"]` as computed by `map_record`: when the enriched
next-service timestamp exists, subtract `(temps_chargement or 0) +
(MargeSécurité or 0)` minutes from it; otherwise, when a
`default_debut_service` fallback is configured, the caller-supplied value is
overwritten with `parse(configuration["finOptim"]) + 1.5 days` (the
`.isoformat()` serialisation immediately re-parsed by `parse_iso_datetime` is
the identity on the datetime and is collapsed here); with no fallback the
template default is kept. -/
def mapRecord_debutService (nextService : Option Int)
    (tempsChargement margeSecurite : Option Int) (defaultDebutService : Option String)
    (finOptim : Int) (tmplVal : String) : String :=
  let tempsCharg := tempsChargement.getD 0
  let margeSec := margeSecurite.getD 0
  match nextService with
  | some ns => isoformat_z (ns - (tempsCharg + margeSec) * usPerMin)
  | none =>
    match defaultDebutService with
    | some _ => isoformat_z (finOptim + 129600 * usPerSec)
    | none => tmplVal

/-- C7: with no enriched next-service timestamp but a configured default-start
fallback, `debutService` is recomputed as `finOptim + 1.5 days`
(129600 seconds), ignoring the caller-supplied fallback value entirely; with a
next-service timestamp, `debutService` is that timestamp minus
`(loading-time + safety-margin)` minutes. -/
theorem mapRecord_debutService_spec (tc ms : Option Int) (finOptim : Int)
    (tmplVal : String) :
    (∀ dflt t, mapRecord_debutService (some t) tc ms dflt finOptim tmplVal =
        isoformat_z (t - (tc.getD 0 + ms.getD 0) * usPerMin)) ∧
    (∀ v, mapRecord_debutService none tc ms (some v) finOptim tmplVal =
        isoformat_z (finOptim + 129600 * usPerSec)) ∧
    (∀ v w, mapRecord_debutService none tc ms (some v) finOptim tmplVal =
        mapRecord_debutService none tc ms (some w) finOptim tmplVal) :=
  ⟨fun _ _ => rfl, fun _ => rfl, fun _ _ => rfl⟩

/-! ## Record mapper: `soc` (`mapper.map_record`, vehicle block) -/

/-- A Python value as found in a record field. -/
inductive Pyv where
  | vint (n : Int)
  | vfloat (q : ℚ)
  | vstr (s : String)
  | vnone
deriving DecidableEq, Repr

/-- Python `int()` truncation toward zero on a rational. -/
def pyTrunc (q : ℚ) : Int :=
  if q < 0 then ⌈q⌉ else ⌊q⌋

/-- Decimal digit run accumulator for `int(str)`. -/
def digitsValAux : List Char → Nat → Option Nat
  | [], acc => some acc
  | c :: cs, acc =>
    if c.isDigit then digitsValAux cs (acc * 10 + (c.toNat - 48)) else none

/-- A nonempty all-digit run parsed as a natural number. -/
def digitsVal : List Char → Option Nat
  | [] => none
  | l => digitsValAux l 0

/-- Python `int(str)`: strip whitespace, optional sign, then decimal digits
only (`int("98.5")` raises). -/
def pyIntOfString (s : String) : Option Int :=
  match (pyStrip s).toList with
  | '+' :: ds => (digitsVal ds).map (fun n => (n : Int))
  | '-' :: ds => (digitsVal ds).map (fun n => -(n : Int))
  | ds => (digitsVal ds).map (fun n => (n : Int))

/-- Python `int(x)` on a record value: identity on ints, truncation toward
zero on floats, decimal parse on strings, failure (`TypeError`) on `None`. -/
def pyInt : Pyv → Option Int
  | .vint n => some n
  | .vfloat q => some (pyTrunc q)
  | .vstr s => pyIntOfString s
  | .vnone => none

/-- `vehicule["soc"]` as computed by `map_record`:
`int(record.get("soc_retour", record.get("soc", 0)))` with the whole
expression falling back to `0` when `int()` raises. -/
def mapRecord_soc (socRetour socPre : Option Pyv) : Int :=
  let raw := socRetour.getD (socPre.getD (.vint 0))
  match pyInt raw with
  | some n => n
  | none => 0

end X2J

namespace X2J

/-- C8 counterexample: a fractional returned SOC of `98.5` yields a mapped
`soc` of `98` (Python `int()` truncation), which is not equal to the returned
SOC — the claim's "soc equals the record's returned SOC" fails. -/
theorem mapRecord_soc_counterexample :
    mapRecord_soc (some (.vfloat (197 / 2))) none = 98 ∧ ((98 : ℚ) ≠ 197 / 2) := by
  constructor
  · simp only [mapRecord_soc, Option.getD, pyInt, pyTrunc]
    rw [if_neg (by norm_num)]
    norm_num
  · norm_num

/-- C8 (amended): `soc` is the Python `int()` truncation of the record's
returned SOC when that field is present, otherwise of the record's
pre-existing SOC when present, otherwise 0; whenever the selected value is
non-numeric (unparsable), `soc` is 0 instead of an error. -/
theorem mapRecord_soc_spec (socRetour socPre : Option Pyv) :
    (∀ v n, socRetour = some v → pyInt v = some n →
      mapRecord_soc socRetour socPre = n) ∧
    (∀ v, socRetour = some v → pyInt v = none → mapRecord_soc socRetour socPre = 0) ∧
    (∀ v n, socRetour = none → socPre = some v → pyInt v = some n →
      mapRecord_soc socRetour socPre = n) ∧
    (∀ v, socRetour = none → socPre = some v → pyInt v = none →
      mapRecord_soc socRetour socPre = 0) ∧
    (socRetour = none → socPre = none → mapRecord_soc socRetour socPre = 0) := by
  refine ⟨?_, ?_, ?_, ?_, ?_⟩
  · rintro v n rfl hv
    simp [mapRecord_soc, hv]
  · rintro v rfl hv
    simp [mapRecord_soc, hv]
  · rintro v n rfl rfl hv
    simp [mapRecord_soc, hv]
  · rintro v rfl rfl hv
    simp [mapRecord_soc, hv]
  · rintro rfl rfl
    simp [mapRecord_soc, pyInt]

/-- Witness for C8's amended theorem: a present integer returned SOC of 42 is
carried through, and a non-numeric returned SOC gives 0. -/
theorem mapRecord_soc_spec_witness :
    (some (Pyv.vint 42) = some (Pyv.vint 42) ∧ pyInt (Pyv.vint 42) = some 42 ∧
      mapRecord_soc (some (.vint 42)) none = 42) ∧
    (pyInt (Pyv.vstr "abc") = none ∧ mapRecord_soc (some (.vstr "abc")) none = 0) :=
  ⟨⟨rfl, rfl, (mapRecord_soc_spec (some (.vint 42)) none).1 _ _ rfl rfl⟩,
    ⟨by decide, (mapRecord_soc_spec (some (.vstr "abc")) none).2.1 _ rfl (by decide)⟩⟩

end X2J

namespace X2J

/-! ## Aggregator (`mapper.aggregate_results`) -/

/-- A charger definition: its `id` plus the remaining fields, kept opaque. -/
structure Chargeur where
  id : String
  body : Nat
deriving DecidableEq, Repr

/-- A transformer: its charger list plus opaque remaining fields. -/
structure Transfo where
  chargeurs : List Chargeur
  tbody : Nat
deriving DecidableEq, Repr

/-- A source: its transformer list plus opaque remaining fields. -/
structure Source where
  transformateurs : List Transfo
  sbody : Nat
deriving DecidableEq, Repr

/-- A per-record run document as consumed by the aggregator: the vehicle
entries (opaque), the sources hierarchy, and the remaining top-level fields. -/
structure RunDoc where
  vehicules : List Nat
  sources : List Source
  rest : Nat
deriving DecidableEq, Repr

/-- The charger definitions one document contributes: the chargers of its
first source's first transformer, or none when either level is empty
(the `if not ...: continue` guards). -/
def docChargeurs (d : RunDoc) : List Chargeur :=
  match d.sources with
  | [] => []
  | s0 :: _ =>
    match s0.transformateurs with
    | [] => []
    | t0 :: _ => t0.chargeurs

/-- The inner loop of `aggregate_results`: append each charger whose `id` is
truthy (nonempty) and not seen yet, tracking seen ids. -/
def addChargeurs : List Chargeur → List String × List Chargeur →
    List String × List Chargeur
  | [], st => st
  | ch :: rest, (seen, acc) =>
    if ch.id ≠ "" ∧ ch.id ∉ seen then addChargeurs rest (ch.id :: seen, acc ++ [ch])
    else addChargeurs rest (seen, acc)

/-- The outer loop of `aggregate_results` over all documents. -/
def collectChargeurs : List RunDoc → List String × List Chargeur →
    List String × List Chargeur
  | [], st => st
  | d :: ds, st => collectChargeurs ds (addChargeurs (docChargeurs d) st)

/-- `mapper.aggregate_results`: `{}` (modelled `none`) on empty input;
otherwise seed from the first document, concatenate all `vehicules`, collect
first-path chargers deduplicated by truthy id, and replace the merged
document's first-path charger list when the merged document has sources —
raising `IndexError` when the first source has no transformer. -/
def aggregate_results (results : List RunDoc) : Except String (Option RunDoc) :=
  match results with
  | [] => .ok none
  | d0 :: _ =>
    let vehs := results.flatMap (·.vehicules)
    let chs := (collectChargeurs results ([], [])).2
    let merged : RunDoc := { d0 with vehicules := vehs }
    match merged.sources with
    | [] => .ok (some merged)
    | s0 :: ss =>
      match s0.transformateurs with
      | [] => .error "IndexError"
      | t0 :: ts =>
        .ok (some { merged with sources :=
          { s0 with transformateurs := { t0 with chargeurs := chs } :: ts } :: ss })

/-- The charger-collection result starting from the empty state. -/
def pyDedup (l : List Chargeur) : List Chargeur := (addChargeurs l ([], [])).2

/-- Deduplication by charger id, first occurrence winning, as the spec words
it (auxiliary, with the set of already-seen ids). -/
def specDedupAux : List Chargeur → List String → List Chargeur
  | [], _ => []
  | ch :: rest, seen =>
    if ch.id ∈ seen then specDedupAux rest seen
    else ch :: specDedupAux rest (ch.id :: seen)

/-- Modelled from the spec's words: "deduplicating by charger id (first
occurrence wins)". -/
def specDedup (l : List Chargeur) : List Chargeur := specDedupAux l []

theorem addChargeurs_append (l1 l2 : List Chargeur) (st : List String × List Chargeur) :
    addChargeurs (l1 ++ l2) st = addChargeurs l2 (addChargeurs l1 st) := by
  induction l1 generalizing st with
  | nil => rfl
  | cons ch rest ih =>
    obtain ⟨seen, acc⟩ := st
    rw [List.cons_append, addChargeurs, addChargeurs]
    split
    · exact ih _
    · exact ih _

theorem collectChargeurs_eq_addChargeurs (docs : List RunDoc)
    (st : List String × List Chargeur) :
    collectChargeurs docs st = addChargeurs (docs.flatMap docChargeurs) st := by
  induction docs generalizing st with
  | nil => rfl
  | cons d ds ih =>
    rw [collectChargeurs, List.flatMap_cons, addChargeurs_append, ih]

theorem addChargeurs_eq_specDedupAux (l : List Chargeur) (seen : List String)
    (acc : List Chargeur) (hne : ∀ ch ∈ l, ch.id ≠ "") :
    (addChargeurs l (seen, acc)).2 = acc ++ specDedupAux l seen := by
  induction l generalizing seen acc with
  | nil => simp [addChargeurs, specDedupAux]
  | cons ch rest ih =>
    have hch : ch.id ≠ "" := hne ch (List.mem_cons_self _ _)
    have hrest : ∀ c ∈ rest, c.id ≠ "" := fun c hc => hne c (List.mem_cons_of_mem _ hc)
    rw [addChargeurs, specDedupAux]
    by_cases hseen : ch.id ∈ seen
    · rw [if_neg (by tauto), if_pos hseen]
      exact ih _ _ hrest
    · rw [if_pos ⟨hch, hseen⟩, if_neg hseen, ih _ _ hrest]
      simp

end X2J

namespace X2J

/-- C3 counterexample: a single document whose first source→first transformer
path holds one charger with an empty (falsy) id. The claim's
"union … deduplicated by charger id, first occurrence wins" keeps one entry
for that id, but `aggregate_results` drops the charger entirely
(`if ch_id and ch_id not in seen`), leaving an empty charger list. -/
theorem aggregate_results_counterexample :
    aggregate_results [⟨[7], [⟨[⟨[⟨"", 3⟩], 0⟩], 0⟩], 0⟩] =
      .ok (some ⟨[7], [⟨[⟨[], 0⟩], 0⟩], 0⟩) ∧
    specDedup (([⟨[7], [⟨[⟨[⟨"", 3⟩], 0⟩], 0⟩], 0⟩] : List RunDoc).flatMap docChargeurs) =
      [⟨"", 3⟩] ∧
    ([] : List Chargeur) ≠ [⟨"", 3⟩] := by
  refine ⟨rfl, by decide, by decide⟩

/-- C3 (amended): on the empty list the aggregator returns the empty mapping
(no error); on a non-empty list of single-vehicle documents, `vehicules` is
the order-preserving concatenation (length N), and — when the merged document
has sources — its first source→first transformer charger list becomes the
collected chargers deduplicated by id with the first occurrence winning,
except that chargers with an empty (falsy) id are dropped; when every
collected charger id is nonempty this coincides with the claim's plain
dedup-by-id. -/
theorem length_flatMap_singles (docs : List RunDoc)
    (h1 : ∀ d ∈ docs, d.vehicules.length = 1) :
    (docs.flatMap (·.vehicules)).length = docs.length := by
  induction docs with
  | nil => rfl
  | cons d ds ih =>
    rw [List.flatMap_cons, List.length_append, List.length_cons,
      h1 d (List.mem_cons_self _ _), ih (fun x hx => h1 x (List.mem_cons_of_mem _ hx))]
    omega

theorem aggregate_results_spec :
    (aggregate_results [] = .ok none) ∧
    ∀ d0 rest, (∀ d ∈ d0 :: rest, d.vehicules.length = 1) →
      (((d0 :: rest).flatMap (·.vehicules)).length = (d0 :: rest).length) ∧
      (d0.sources = [] →
        aggregate_results (d0 :: rest) =
          .ok (some { d0 with vehicules := (d0 :: rest).flatMap (·.vehicules) })) ∧
      (∀ s0 ss t0 ts, d0.sources = s0 :: ss → s0.transformateurs = t0 :: ts →
        aggregate_results (d0 :: rest) =
          .ok (some { d0 with
            vehicules := (d0 :: rest).flatMap (·.vehicules),
            sources := { s0 with transformateurs :=
              { t0 with chargeurs :=
                  pyDedup ((d0 :: rest).flatMap docChargeurs) } :: ts } :: ss })) ∧
      ((∀ ch ∈ (d0 :: rest).flatMap docChargeurs, ch.id ≠ "") →
        pyDedup ((d0 :: rest).flatMap docChargeurs) =
          specDedup ((d0 :: rest).flatMap docChargeurs)) := by
  refine ⟨rfl, ?_⟩
  intro d0 rest hone
  refine ⟨length_flatMap_singles _ hone, ?_, ?_, ?_⟩
  · intro hs
    simp only [aggregate_results]
    rw [hs]
  · intro s0 ss t0 ts hs ht
    simp only [aggregate_results]
    rw [hs]
    dsimp only
    rw [ht]
    dsimp only
    rw [collectChargeurs_eq_addChargeurs]
    rfl
  · intro hne
    rw [pyDedup, addChargeurs_eq_specDedupAux _ _ _ hne, List.nil_append, specDedup]

end X2J

namespace X2J

/-- Witness for C3's amended theorem: two single-vehicle documents whose
first-path chargers share the id `CH1`; the aggregate has both vehicles in
input order and a single charger entry — the first occurrence. -/
theorem aggregate_results_spec_witness :
    (∀ d ∈ ([⟨[1], [⟨[⟨[⟨"CH1", 5⟩], 0⟩], 0⟩], 0⟩,
        ⟨[2], [⟨[⟨[⟨"CH1", 9⟩], 0⟩], 0⟩], 0⟩] : List RunDoc), d.vehicules.length = 1) ∧
    aggregate_results [⟨[1], [⟨[⟨[⟨"CH1", 5⟩], 0⟩], 0⟩], 0⟩,
        ⟨[2], [⟨[⟨[⟨"CH1", 9⟩], 0⟩], 0⟩], 0⟩] =
      .ok (some ⟨[1, 2], [⟨[⟨[⟨"CH1", 5⟩], 0⟩], 0⟩], 0⟩) := by
  constructor
  · decide
  · have h := (aggregate_results_spec.2 ⟨[1], [⟨[⟨[⟨"CH1", 5⟩], 0⟩], 0⟩], 0⟩
      [⟨[2], [⟨[⟨[⟨"CH1", 9⟩], 0⟩], 0⟩], 0⟩] (by decide)).2.2.1
      ⟨[⟨[⟨"CH1", 5⟩], 0⟩], 0⟩ [] ⟨[⟨"CH1", 5⟩], 0⟩ [] rfl rfl
    rw [h]
    rfl

end X2J

namespace X2J

/-! ## Schema validator (`validator._validate`, `validator.SCHEMA`) -/

/-- A JSON value (the document shapes handled by the validator). -/
inductive Json where
  | jnull
  | jint (n : Int)
  | jfloat (q : ℚ)
  | jstr (s : String)
  | jarr (items : List Json)
  | jobj (fields : List (String × Json))

/-- The Python type objects used in the built-in schema. -/
inductive TypeTag where
  | tstr
  | tint
  | tfloat
deriving DecidableEq, Repr

/-- `isinstance(value, t)` for the schema's type tags. -/
def isinst : Json → TypeTag → Bool
  | .jstr _, .tstr => true
  | .jint _, .tint => true
  | .jfloat _, .tfloat => true
  | _, _ => false

/-- A schema node: a mapping of required keys, a single-element sequence, a
type, a tuple of types, or a predicate (callable).  `_validate` also raises on
schema lists whose length differs from 1; `slist` carries exactly the one
element schema, so that error case is unrepresentable here. -/
inductive SNode where
  | smap (fields : List (String × SNode))
  | slist (elem : SNode)
  | stype (t : TypeTag)
  | stuple (ts : List TypeTag)
  | spred (p : Json → Bool)

mutual
/-- `validator._validate`: mapping nodes require a dict value with every
schema key present and recurse in schema order; sequence nodes require a list
value and validate every element against the single element schema; type and
tuple nodes require `isinstance` membership; predicate nodes require the
predicate to hold.  The first failure raises (`Except.error`). -/
def pyValidate : Json → SNode → Except String Unit
  | v, .smap fields =>
    match v with
    | .jobj obj => pyValidateFields obj fields
    | _ => .error "must be an object"
  | v, .slist elem =>
    match v with
    | .jarr items => pyValidateItems items elem
    | _ => .error "must be a list"
  | v, .stype t => if isinst v t then .ok () else .error "type error"
  | v, .stuple ts => if ts.any (fun t => isinst v t) then .ok () else .error "type error"
  | v, .spred p => if p v then .ok () else .error "has invalid value"
termination_by v s => (sizeOf s, 0)

/-- The mapping-node loop of `_validate`: iterate the schema keys in order,
failing on the first missing key or invalid value. -/
def pyValidateFields : List (String × Json) → List (String × SNode) → Except String Unit
  | _, [] => .ok ()
  | obj, (k, sub) :: rest =>
    match List.lookup k obj with
    | none => .error "Missing key"
    | some v =>
      match pyValidate v sub with
      | .ok _ => pyValidateFields obj rest
      | .error e => .error e
termination_by obj l => (sizeOf l, 0)

/-- The sequence-node loop of `_validate`: validate elements left to right,
failing on the first invalid element. -/
def pyValidateItems : List Json → SNode → Except String Unit
  | [], _ => .ok ()
  | item :: rest, elem =>
    match pyValidate item elem with
    | .ok _ => pyValidateItems rest elem
    | .error e => .error e
termination_by l e => (sizeOf e, l.length + 1)
end

mutual
/-- Modelled from the spec's words for §4.6: a mapping node requires all keys
present and recurses; a single-element sequence node requires a sequence and
validates every element; a type or tuple node requires `isinstance`
membership; a predicate node requires the predicate to return true. -/
def conformsSpec : Json → SNode → Bool
  | v, .smap fields =>
    match v with
    | .jobj obj => conformsFields obj fields
    | _ => false
  | v, .slist elem =>
    match v with
    | .jarr items => conformsItems items elem
    | _ => false
  | v, .stype t => isinst v t
  | v, .stuple ts => ts.any (fun t => isinst v t)
  | v, .spred p => p v
termination_by v s => (sizeOf s, 0)

/-- Every schema key present in the object with a conformant value. -/
def conformsFields : List (String × Json) → List (String × SNode) → Bool
  | _, [] => true
  | obj, (k, sub) :: rest =>
    match List.lookup k obj with
    | none => false
    | some v => conformsSpec v sub && conformsFields obj rest
termination_by obj l => (sizeOf l, 0)

/-- Every sequence element conformant to the single element schema. -/
def conformsItems : List Json → SNode → Bool
  | [], _ => true
  | item :: rest, elem => conformsSpec item elem && conformsItems rest elem
termination_by l e => (sizeOf e, l.length + 1)
end

end X2J

namespace X2J

theorem pyValidateItems_iff (elem : SNode)
    (hel : ∀ v, pyValidate v elem = .ok () ↔ conformsSpec v elem = true)
    (items : List Json) :
    pyValidateItems items elem = .ok () ↔ conformsItems items elem = true := by
  induction items with
  | nil => simp [pyValidateItems, conformsItems]
  | cons item rest ih =>
    cases hcase : pyValidate item elem with
    | ok u =>
      cases u
      have hc : conformsSpec item elem = true := (hel item).mp hcase
      simp only [pyValidateItems, conformsItems, hcase, hc, Bool.true_and]
      exact ih
    | error e =>
      have hc : conformsSpec item elem = false := by
        rw [Bool.eq_false_iff]
        intro hT
        have h2 := (hel item).mpr hT
        rw [hcase] at h2
        exact Except.noConfusion h2
      simp [pyValidateItems, conformsItems, hcase, hc]

theorem pyValidateFields_iff (obj : List (String × Json)) (fields : List (String × SNode))
    (hf : ∀ k sub, (k, sub) ∈ fields →
      ∀ v, pyValidate v sub = .ok () ↔ conformsSpec v sub = true) :
    pyValidateFields obj fields = .ok () ↔ conformsFields obj fields = true := by
  induction fields with
  | nil => simp [pyValidateFields, conformsFields]
  | cons p rest ih =>
    obtain ⟨k, sub⟩ := p
    have hsub := hf k sub (List.mem_cons_self _ _)
    have hrest : ∀ k' sub', (k', sub') ∈ rest →
        ∀ v, pyValidate v sub' = .ok () ↔ conformsSpec v sub' = true :=
      fun k' s' h => hf k' s' (List.mem_cons_of_mem _ h)
    cases hlk : List.lookup k obj with
    | none => simp [pyValidateFields, conformsFields, hlk]
    | some v =>
      cases hcase : pyValidate v sub with
      | ok u =>
        cases u
        have hc : conformsSpec v sub = true := (hsub v).mp hcase
        simp only [pyValidateFields, conformsFields, hlk, hcase, hc, Bool.true_and]
        exact ih hrest
      | error e =>
        have hc : conformsSpec v sub = false := by
          rw [Bool.eq_false_iff]
          intro hT
          have h2 := (hsub v).mpr hT
          rw [hcase] at h2
          exact Except.noConfusion h2
        simp [pyValidateFields, conformsFields, hlk, hcase, hc]

theorem pyValidate_ok_iff (s : SNode) (v : Json) :
    pyValidate v s = .ok () ↔ conformsSpec v s = true := by
  suffices h : ∀ n (s : SNode), sizeOf s ≤ n →
      ∀ v, pyValidate v s = .ok () ↔ conformsSpec v s = true from
    h (sizeOf s) s le_rfl v
  intro n
  induction n with
  | zero =>
    intro s hs v
    exfalso
    cases s <;> simp at hs
  | succ n ih =>
    intro s hs v
    cases s with
    | stype t =>
      cases h : isinst v t <;> simp [pyValidate, conformsSpec, h]
    | stuple ts =>
      cases h : ts.any (fun t => isinst v t) <;> simp [pyValidate, conformsSpec, h]
    | spred p =>
      cases h : p v <;> simp [pyValidate, conformsSpec, h]
    | smap fields =>
      simp only [SNode.smap.sizeOf_spec] at hs
      cases v with
      | jobj obj =>
        simp only [pyValidate, conformsSpec]
        apply pyValidateFields_iff
        intro k sub hmem v'
        apply ih
        have h1 := List.sizeOf_lt_of_mem hmem
        simp only [Prod.mk.sizeOf_spec] at h1
        omega
      | jnull => simp [pyValidate, conformsSpec]
      | jint m => simp [pyValidate, conformsSpec]
      | jfloat q => simp [pyValidate, conformsSpec]
      | jstr t => simp [pyValidate, conformsSpec]
      | jarr items => simp [pyValidate, conformsSpec]
    | slist elem =>
      simp only [SNode.slist.sizeOf_spec] at hs
      cases v with
      | jarr items =>
        simp only [pyValidate, conformsSpec]
        apply pyValidateItems_iff
        intro v'
        apply ih
        omega
      | jnull => simp [pyValidate, conformsSpec]
      | jint m => simp [pyValidate, conformsSpec]
      | jfloat q => simp [pyValidate, conformsSpec]
      | jstr t => simp [pyValidate, conformsSpec]
      | jobj obj => simp [pyValidate, conformsSpec]

theorem conformsFields_true_mem (obj : List (String × Json))
    (fields : List (String × SNode)) (h : conformsFields obj fields = true)
    (k : String) (sub : SNode) (hmem : (k, sub) ∈ fields) :
    ∃ v, List.lookup k obj = some v ∧ conformsSpec v sub = true := by
  induction fields with
  | nil => cases hmem
  | cons p rest ih =>
    obtain ⟨k', sub'⟩ := p
    cases hlk : List.lookup k' obj with
    | none => simp [conformsFields, hlk] at h
    | some v' =>
      simp only [conformsFields, hlk, Bool.and_eq_true] at h
      rcases List.mem_cons.mp hmem with heq | hmem'
      · obtain ⟨rfl, rfl⟩ := Prod.mk.injEq .. ▸ heq
        exact ⟨v', hlk, h.1⟩
      · exact ih h.2 hmem'

end X2J

namespace X2J

/-- C6: schema validation raises an error on the first missing required key or
wrongly-typed field (first failure wins, before returning), passes (returns
`ok ()`, no value) exactly on conformant documents, and follows the node
semantics: mapping nodes require all keys and recurse, a single-element
sequence node validates every element against that element schema, type and
tuple nodes require `isinstance` membership, predicate nodes require the
predicate to return true — all captured by equivalence with the spec-worded
`conformsSpec`. -/
theorem validate_spec (v : Json) (s : SNode) :
    (pyValidate v s = .ok () ↔ conformsSpec v s = true) ∧
    (conformsSpec v s = false → ∃ e, pyValidate v s = .error e) ∧
    (∀ obj fields k sub, v = .jobj obj → s = .smap fields → (k, sub) ∈ fields →
      List.lookup k obj = none → ∃ e, pyValidate v s = .error e) ∧
    (∀ t, s = .stype t → isinst v t = false → ∃ e, pyValidate v s = .error e) := by
  refine ⟨pyValidate_ok_iff s v, ?_, ?_, ?_⟩
  · intro hfalse
    cases hres : pyValidate v s with
    | ok u =>
      cases u
      have hT := (pyValidate_ok_iff s v).mp hres
      rw [hfalse] at hT
      exact absurd hT (by simp)
    | error e => exact ⟨e, rfl⟩
  · rintro obj fields k sub rfl rfl hmem hnone
    cases hres : pyValidate (.jobj obj) (.smap fields) with
    | ok u =>
      cases u
      have hc := (pyValidate_ok_iff _ _).mp hres
      rw [show conformsSpec (.jobj obj) (.smap fields) = conformsFields obj fields from
        by simp [conformsSpec]] at hc
      obtain ⟨v', hv', _⟩ := conformsFields_true_mem obj fields hc k sub hmem
      rw [hnone] at hv'
      exact Option.noConfusion hv'
    | error e => exact ⟨e, rfl⟩
  · rintro t rfl hf
    refine ⟨"type error", ?_⟩
    simp [pyValidate, hf]

/-- Witness for C6: a document missing the required key `a` makes the
validator raise, and a document carrying `a` as an int passes. -/
theorem validate_spec_witness :
    ((("a", SNode.stype .tint) ∈ [("a", SNode.stype .tint)]) ∧
      List.lookup "a" ([] : List (String × Json)) = none ∧
      (∃ e, pyValidate (.jobj []) (.smap [("a", .stype .tint)]) = .error e)) ∧
    pyValidate (.jobj [("a", .jint 3)]) (.smap [("a", .stype .tint)]) = .ok () := by
  constructor
  · refine ⟨List.mem_singleton.mpr rfl, rfl, ?_⟩
    exact (validate_spec (.jobj []) (.smap [("a", .stype .tint)])).2.2.1
      [] [("a", .stype .tint)] "a" (.stype .tint) rfl rfl (List.mem_singleton.mpr rfl) rfl
  · exact (validate_spec (.jobj [("a", .jint 3)]) (.smap [("a", .stype .tint)])).1.mpr
      (by simp [conformsSpec, conformsFields, List.lookup, isinst])

end X2J

namespace X2J

/-! ## Built-in schema (`validator.SCHEMA`, `validator.validate_json`) -/

/-- Python `str.rstrip("Z")`: drop every trailing `Z`. -/
def pyRstripZ (s : String) : String :=
  String.mk ((s.toList.reverse.dropWhile (· = 'Z')).reverse)

/-- Decimal value of a digit run. -/
def natOfDigits (l : List Char) : Nat :=
  l.foldl (fun a c => a * 10 + (c.toNat - 48)) 0

/-- All characters are decimal digits. -/
def allDigits (l : List Char) : Bool := l.all (·.isDigit)

/-- Gregorian leap year. -/
def isLeap (y : Nat) : Bool := (y % 4 == 0 && y % 100 != 0) || y % 400 == 0

/-- Length of a month, used by `date.fromisoformat`'s calendar check. -/
def daysInMonth (y m : Nat) : Nat :=
  if m = 2 then (if isLeap y then 29 else 28)
  else if m = 4 ∨ m = 6 ∨ m = 9 ∨ m = 11 then 30
  else 31

/-- `date.fromisoformat` validity: exactly `YYYY-MM-DD`, a real calendar date
with year 1–9999. -/
def isoDateOk (l : List Char) : Bool :=
  match l with
  | [y1, y2, y3, y4, '-', m1, m2, '-', d1, d2] =>
    allDigits [y1, y2, y3, y4, m1, m2, d1, d2] &&
      (decide (1 ≤ natOfDigits [y1, y2, y3, y4]) &&
        decide (1 ≤ natOfDigits [m1, m2]) && decide (natOfDigits [m1, m2] ≤ 12) &&
        decide (1 ≤ natOfDigits [d1, d2]) &&
        decide (natOfDigits [d1, d2] ≤
          daysInMonth (natOfDigits [y1, y2, y3, y4]) (natOfDigits [m1, m2])))
  | _ => false

/-- Time-of-day validity for `datetime.fromisoformat`:
`HH[:MM[:SS[.fff[fff]]]]` with range checks (timezone offsets are not used by
this repository's data and are not modelled). -/
def isoTimeOk (l : List Char) : Bool :=
  match l with
  | [h1, h2] => allDigits [h1, h2] && decide (natOfDigits [h1, h2] < 24)
  | [h1, h2, ':', m1, m2] =>
    allDigits [h1, h2, m1, m2] && decide (natOfDigits [h1, h2] < 24) &&
      decide (natOfDigits [m1, m2] < 60)
  | [h1, h2, ':', m1, m2, ':', s1, s2] =>
    allDigits [h1, h2, m1, m2, s1, s2] && decide (natOfDigits [h1, h2] < 24) &&
      decide (natOfDigits [m1, m2] < 60) && decide (natOfDigits [s1, s2] < 60)
  | h1 :: h2 :: ':' :: m1 :: m2 :: ':' :: s1 :: s2 :: '.' :: frac =>
    allDigits [h1, h2, m1, m2, s1, s2] && decide (natOfDigits [h1, h2] < 24) &&
      decide (natOfDigits [m1, m2] < 60) && decide (natOfDigits [s1, s2] < 60) &&
      allDigits frac && (decide (frac.length = 3) || decide (frac.length = 6))
  | _ => false

/-- `validator._is_iso_datetime`: the empty string is allowed; otherwise the
value must be a string whose `rstrip("Z")` form splits as a 10-character ISO
date, an arbitrary separator character, and a valid time part (or is a date
alone). -/
def is_iso_datetime (v : Json) : Bool :=
  match v with
  | .jstr s =>
    if s = "" then true
    else
      let l := (pyRstripZ s).toList
      if l.length ≤ 10 then isoDateOk l
      else isoDateOk (l.take 10) && isoTimeOk (l.drop 11)
  | _ => false

/-- `validator._is_iso_date`: a string accepted by `date.fromisoformat`. -/
def is_iso_date (v : Json) : Bool :=
  match v with
  | .jstr s => isoDateOk s.toList
  | _ => false

/-- The `{x, y}` point sub-schema with a possibly-float `y`. -/
def rendementSchema : SNode :=
  .slist (.smap [("x", .stype .tint), ("y", .stuple [.tint, .tfloat])])

/-- `validator.SCHEMA`, embedded node for node: note the top level lists
`idRun`, `synthese`, `configuration`, `rapport`, `sources`, `vehicules` and
has no `choix_optim` entry. -/
def SCHEMA : SNode := .smap [
  ("idRun", .stype .tstr),
  ("synthese", .slist (.stype .tstr)),
  ("configuration", .smap [
    ("activationRendement", .stype .tstr),
    ("axeOptimDegrade", .slist (.stype .tint)),
    ("diminutionSOC", .stype .tint),
    ("pasDeTemps", .stype .tint),
    ("maximumExecTemps", .stype .tint),
    ("debutOptim", .spred is_iso_datetime),
    ("finOptim", .spred is_iso_datetime)]),
  ("rapport", .smap [
    ("url", .stype .tstr),
    ("resultUrl", .stype .tstr)]),
  ("sources", .slist (.smap [
    ("id", .stype .tstr),
    ("libelle", .stype .tstr),
    ("pMax", .slist (.stype .tint)),
    ("tranches", .slist (.smap [
      ("id", .stype .tstr),
      ("cout", .stuple [.tint, .tfloat]),
      ("dateDebut", .spred is_iso_date),
      ("dateFin", .spred is_iso_date),
      ("heureTranche", .slist (.smap [
        ("debut", .stype .tint),
        ("fin", .stype .tint)]))])),
    ("transformateurs", .slist (.smap [
      ("id", .stype .tstr),
      ("libelle", .stype .tstr),
      ("etat", .stype .tstr),
      ("rendement", rendementSchema),
      ("facteurPuissance", .stuple [.tint, .tfloat]),
      ("pMax", .stype .tint),
      ("chargeurs", .slist (.smap [
        ("id", .stype .tstr),
        ("libelle", .stype .tstr),
        ("etat", .stype .tstr),
        ("pMax", .stype .tint),
        ("typeChargeur", .stype .tstr),
        ("mutualisation", .smap [
          ("nombrePrises", .stype .tint),
          ("configsMutualisation", .slist (.smap [
            ("configMutualisation", .slist (.stype .tint))]))]),
        ("rendement", rendementSchema),
        ("prises", .slist (.smap [
          ("id", .stype .tstr),
          ("libelle", .stype .tstr),
          ("etat", .stype .tstr),
          ("typePrise", .stype .tstr),
          ("pMax", .stype .tint)]))]))]))])),
  ("vehicules", .slist (.smap [
    ("id", .stype .tstr),
    ("capaciteBatterie", .stype .tint),
    ("idPrise", .stype .tstr),
    ("libelle", .stype .tstr),
    ("modeBoost", .stype .tint),
    ("typeChargeur", .slist (.smap [("modeleChargeur", .stype .tstr)])),
    ("typePrise", .stype .tstr),
    ("profilBatterie", .slist (.smap [
      ("x", .stype .tint),
      ("y", .stype .tint)])),
    ("soc", .stype .tint),
    ("socCible", .stype .tint),
    ("dureeService", .stype .tint),
    ("finService", .spred is_iso_datetime),
    ("debutService", .spred is_iso_datetime)]))]

/-- `validator.validate_json`: validate against the built-in schema. -/
def validate_json (data : Json) : Except String Unit :=
  pyValidate data SCHEMA

/-- The required keys of a mapping schema node. -/
def smapKeys : SNode → List String
  | .smap fields => fields.map Prod.fst
  | _ => []

/-- Whether a JSON object carries a given key. -/
def jsonHasKey (v : Json) (k : String) : Bool :=
  match v with
  | .jobj fields => (List.lookup k fields).isSome
  | _ => false

/-- A run document with every SCHEMA key present and conformant but no
`choix_optim` key at all. -/
def docNoChoixOptim : Json := .jobj [
  ("idRun", .jstr "run-1"),
  ("synthese", .jarr []),
  ("configuration", .jobj [
    ("activationRendement", .jstr "false"),
    ("axeOptimDegrade", .jarr []),
    ("diminutionSOC", .jint 0),
    ("pasDeTemps", .jint 0),
    ("maximumExecTemps", .jint 0),
    ("debutOptim", .jstr ""),
    ("finOptim", .jstr "")]),
  ("rapport", .jobj [
    ("url", .jstr "http://example.com"),
    ("resultUrl", .jstr "http://example.com/result")]),
  ("sources", .jarr []),
  ("vehicules", .jarr [])]

end X2J

namespace X2J

/-- C10: the built-in schema requires exactly `idRun`, `synthese`,
`configuration`, `rapport`, `sources`, `vehicules` at the top level and never
mentions `choix_optim`; consequently every document conformant to the listed
keys passes `validate_json`, and in particular `docNoChoixOptim` — which
carries no `choix_optim` key — passes. -/
theorem validate_json_no_choix_optim :
    smapKeys SCHEMA =
      ["idRun", "synthese", "configuration", "rapport", "sources", "vehicules"] ∧
    "choix_optim" ∉ smapKeys SCHEMA ∧
    (∀ doc, conformsSpec doc SCHEMA = true → validate_json doc = .ok ()) ∧
    jsonHasKey docNoChoixOptim "choix_optim" = false ∧
    validate_json docNoChoixOptim = .ok () := by
  have heval : conformsSpec docNoChoixOptim SCHEMA = true := by
    simp [conformsSpec, conformsFields, conformsItems, SCHEMA, docNoChoixOptim,
      List.lookup, isinst, is_iso_datetime]
  refine ⟨rfl, by decide, ?_, rfl, ?_⟩
  · intro doc h
    exact (pyValidate_ok_iff SCHEMA doc).mpr h
  · exact (pyValidate_ok_iff SCHEMA docNoChoixOptim).mpr heval

/-- Witness for C10: the conformance hypothesis discharged at
`docNoChoixOptim`, which indeed passes `validate_json`. -/
theorem validate_json_no_choix_optim_witness :
    conformsSpec docNoChoixOptim SCHEMA = true ∧
    validate_json docNoChoixOptim = .ok () := by
  have heval : conformsSpec docNoChoixOptim SCHEMA = true := by
    simp [conformsSpec, conformsFields, conformsItems, SCHEMA, docNoChoixOptim,
      List.lookup, isinst, is_iso_datetime]
  exact ⟨heval, validate_json_no_choix_optim.2.2.1 docNoChoixOptim heval⟩

end X2J

namespace X2J

/-! ## Record mapper frame property (`mapper.map_record`)

Python objects live on a heap; `map_record` receives the shared template by
reference, deep-copies it (and its `configuration` / first vehicle prototypes)
and mutates only the copies.  The heap is modelled explicitly: addresses are
indices into a list of objects, `deepcopy` allocates fresh objects at the end,
and every field assignment targets an address.  Scalar field values are
abstracted as opaque strings — the claim is about which objects are mutated,
not about the values written. -/

/-- A heap object: a scalar (`leaf`) or a dict/list whose entries point to
other heap addresses (`node`; lists use stringified indices as keys). -/
inductive HObj where
  | leaf (v : String)
  | node (kids : List (String × Nat))

/-- The heap: address `i` holds `h.get? i`. -/
abbrev Heap := List HObj

/-- Allocate a fresh object at the end of the heap. -/
def halloc (h : Heap) (o : HObj) : Heap × Nat := (h ++ [o], h.length)

/-- The child pointers of an object. -/
def kidsOf : HObj → List (String × Nat)
  | .leaf _ => []
  | .node kids => kids

/-- `dict.__setitem__` on a kid list: replace in place or append. -/
def setKid : List (String × Nat) → String → Nat → List (String × Nat)
  | [], k, p => [(k, p)]
  | (k', p') :: rest, k, p =>
    if k' = k then (k, p) :: rest else (k', p') :: setKid rest k p

/-- Assign field `k` of the object at address `a` to point at `p` (no-op when
the address does not hold a node, where Python would raise). -/
def hset (h : Heap) (a : Nat) (k : String) (p : Nat) : Heap :=
  match h[a]? with
  | some (.node kids) => h.set a (.node (setKid kids k p))
  | _ => h

/-- Read field `k` of the object at address `a`. -/
def hgetKid (h : Heap) (a : Nat) (k : String) : Option Nat :=
  match h[a]? with
  | some (.node kids) => List.lookup k kids
  | _ => none

mutual
/-- `copy.deepcopy` with fuel: recursively copy the object graph reachable
from `a`, allocating only fresh addresses. -/
def deepcopy : Nat → Heap → Nat → Heap × Nat
  | 0, h, _ => halloc h (.leaf "")
  | fuel + 1, h, a =>
    match h[a]? with
    | some (.node kids) =>
      let r := deepcopyKids fuel h kids
      halloc r.1 (.node r.2)
    | some (.leaf v) => halloc h (.leaf v)
    | none => halloc h (.leaf "")
termination_by fuel h a => (fuel, 0)

/-- Deep-copy each child in order. -/
def deepcopyKids : Nat → Heap → List (String × Nat) → Heap × List (String × Nat)
  | _, h, [] => (h, [])
  | fuel, h, (k, a) :: rest =>
    let r1 := deepcopy fuel h a
    let r2 := deepcopyKids fuel r1.1 rest
    (r2.1, (k, r1.2) :: r2.2)
termination_by fuel h l => (fuel, l.length + 1)
end

/-- Externally produced data (parsed infrastructure file, battery profile,
fresh lists): a tree allocated object by object on the heap. -/
inductive HTree where
  | hleaf (v : String)
  | hnode (kids : List (String × HTree))

mutual
/-- Allocate a fresh tree on the heap, returning its root address. -/
def allocTree : Heap → HTree → Heap × Nat
  | h, .hleaf v => halloc h (.leaf v)
  | h, .hnode kids =>
    let r := allocTreeKids h kids
    halloc r.1 (.node r.2)
termination_by h t => sizeOf t

/-- Allocate each child tree in order. -/
def allocTreeKids : Heap → List (String × HTree) → Heap × List (String × Nat)
  | h, [] => (h, [])
  | h, (k, t) :: rest =>
    let r1 := allocTree h t
    let r2 := allocTreeKids r1.1 rest
    (r2.1, (k, r1.2) :: r2.2)
termination_by h l => sizeOf l
end

/-- The frame invariant relative to the initial heap `h0`: the heap only
grew, every original address holds its original object, and every object at a
fresh address points only at fresh addresses. -/
def Frame (h0 h : Heap) : Prop :=
  h0.length ≤ h.length ∧
  (∀ i, i < h0.length → h[i]? = h0[i]?) ∧
  (∀ i o, h0.length ≤ i → h[i]? = some o →
    ∀ k p, (k, p) ∈ kidsOf o → h0.length ≤ p)

theorem frame_refl (h0 : Heap) : Frame h0 h0 := by
  refine ⟨le_rfl, fun i _ => rfl, fun i o hge hsome k p _ => ?_⟩
  rw [List.getElem?_eq_none hge] at hsome
  exact Option.noConfusion hsome

end X2J

namespace X2J

theorem frame_halloc (h0 h : Heap) (o : HObj) (hF : Frame h0 h)
    (hk : ∀ k p, (k, p) ∈ kidsOf o → h0.length ≤ p) :
    Frame h0 (halloc h o).1 ∧ h0.length ≤ (halloc h o).2 ∧
      h.length ≤ (halloc h o).1.length := by
  obtain ⟨hlen, hpres, hfresh⟩ := hF
  refine ⟨⟨?_, ?_, ?_⟩, hlen, ?_⟩
  · simp only [halloc, List.length_append, List.length_cons, List.length_nil]
    omega
  · intro i hi
    have hlt : i < h.length := lt_of_lt_of_le hi hlen
    simp only [halloc]
    rw [List.getElem?_append_left hlt]
    exact hpres i hi
  · intro i o' hge hsome k p hmem
    simp only [halloc] at hsome
    by_cases hlt : i < h.length
    · rw [List.getElem?_append_left hlt] at hsome
      exact hfresh i o' hge hsome k p hmem
    · push_neg at hlt
      rw [List.getElem?_append_right hlt] at hsome
      rcases Nat.eq_or_lt_of_le hlt with heq | hgt
      · rw [← heq, Nat.sub_self] at hsome
        have ho : o = o' := by simpa using hsome
        exact hk k p (ho ▸ hmem)
      · rw [List.getElem?_eq_none (by simp; omega)] at hsome
        exact Option.noConfusion hsome
  · simp only [halloc, List.length_append, List.length_cons, List.length_nil]
    omega

theorem setKid_mem (kids : List (String × Nat)) (k : String) (p : Nat)
    (k' : String) (p' : Nat) (hmem : (k', p') ∈ setKid kids k p) :
    (k', p') ∈ kids ∨ p' = p := by
  induction kids with
  | nil =>
    simp only [setKid, List.mem_singleton, Prod.mk.injEq] at hmem
    exact Or.inr hmem.2
  | cons q rest ih =>
    obtain ⟨kq, pq⟩ := q
    rw [setKid] at hmem
    by_cases hkq : kq = k
    · rw [if_pos hkq] at hmem
      rcases List.mem_cons.mp hmem with heq | hmem'
      · obtain ⟨-, h2⟩ := Prod.mk.injEq .. ▸ heq
        exact Or.inr h2
      · exact Or.inl (List.mem_cons_of_mem _ hmem')
    · rw [if_neg hkq] at hmem
      rcases List.mem_cons.mp hmem with heq | hmem'
      · exact Or.inl (heq ▸ List.mem_cons_self _ _)
      · rcases ih hmem' with h | h
        · exact Or.inl (List.mem_cons_of_mem _ h)
        · exact Or.inr h

theorem frame_hset (h0 h : Heap) (a : Nat) (k : String) (p : Nat)
    (hF : Frame h0 h) (ha : h0.length ≤ a) (hp : h0.length ≤ p) :
    Frame h0 (hset h a k p) := by
  obtain ⟨hlen, hpres, hfresh⟩ := hF
  unfold hset
  cases hga : h[a]? with
  | none => exact ⟨hlen, hpres, hfresh⟩
  | some o =>
    cases o with
    | leaf v => exact ⟨hlen, hpres, hfresh⟩
    | node kids =>
      have halen : a < h.length := by
        by_contra hcon
        push_neg at hcon
        rw [List.getElem?_eq_none hcon] at hga
        exact Option.noConfusion hga
      refine ⟨by simpa using hlen, ?_, ?_⟩
      · intro i hi
        rw [List.getElem?_set_ne (by omega)]
        exact hpres i hi
      · intro i o' hge hsome k' p' hmem
        by_cases hia : a = i
        · subst hia
          rw [List.getElem?_set_self halen] at hsome
          have ho : HObj.node (setKid kids k p) = o' := by simpa using hsome
          rw [← ho] at hmem
          rcases setKid_mem kids k p k' p' hmem with hin | hpp
          · exact hfresh a (.node kids) ha hga k' p' hin
          · exact hpp ▸ hp
        · rw [List.getElem?_set_ne hia] at hsome
          exact hfresh i o' hge hsome k' p' hmem

theorem hgetKid_fresh (h0 h : Heap) (a : Nat) (k : String) (p : Nat)
    (hF : Frame h0 h) (ha : h0.length ≤ a) (hg : hgetKid h a k = some p) :
    h0.length ≤ p := by
  unfold hgetKid at hg
  cases hga : h[a]? with
  | none => rw [hga] at hg; exact Option.noConfusion hg
  | some o =>
    cases o with
    | leaf v => rw [hga] at hg; exact Option.noConfusion hg
    | node kids =>
      rw [hga] at hg
      simp only at hg
      obtain ⟨l₁, l₂, heq, -⟩ := List.lookup_eq_some_iff.mp hg
      have hmem : (k, p) ∈ kids := by
        rw [heq]
        exact List.mem_append_right _ (List.mem_cons_self _ _)
      exact hF.2.2 a (.node kids) ha hga k p hmem

end X2J

namespace X2J

theorem frame_deepcopy_all : ∀ fuel,
    (∀ h0 h a, Frame h0 h →
      Frame h0 (deepcopy fuel h a).1 ∧ h.length ≤ (deepcopy fuel h a).1.length ∧
        h0.length ≤ (deepcopy fuel h a).2) ∧
    (∀ h0 l, ∀ h, Frame h0 h →
      Frame h0 (deepcopyKids fuel h l).1 ∧ h.length ≤ (deepcopyKids fuel h l).1.length ∧
        ∀ k p, (k, p) ∈ (deepcopyKids fuel h l).2 → h0.length ≤ p) := by
  intro fuel
  induction fuel with
  | zero =>
    have hA : ∀ h0 h a, Frame h0 h →
        Frame h0 (deepcopy 0 h a).1 ∧ h.length ≤ (deepcopy 0 h a).1.length ∧
          h0.length ≤ (deepcopy 0 h a).2 := by
      intro h0 h a hF
      simp only [deepcopy]
      have hal := frame_halloc h0 h (.leaf "") hF (by intro k p hm; simp [kidsOf] at hm)
      exact ⟨hal.1, hal.2.2, hal.2.1⟩
    refine ⟨hA, ?_⟩
    intro h0 l
    induction l with
    | nil =>
      intro h hF
      simp only [deepcopyKids]
      exact ⟨hF, le_rfl, by simp⟩
    | cons q rest ih =>
      obtain ⟨k, a⟩ := q
      intro h hF
      have h1 := hA h0 h a hF
      have h2 := ih (deepcopy 0 h a).1 h1.1
      simp only [deepcopyKids]
      refine ⟨h2.1, le_trans h1.2.1 h2.2.1, ?_⟩
      intro k' p hmem
      rcases List.mem_cons.mp hmem with heq | hmem'
      · obtain ⟨-, h4⟩ := Prod.mk.injEq .. ▸ heq
        exact h4 ▸ h1.2.2
      · exact h2.2.2 k' p hmem'
  | succ n ih =>
    have hA : ∀ h0 h a, Frame h0 h →
        Frame h0 (deepcopy (n + 1) h a).1 ∧ h.length ≤ (deepcopy (n + 1) h a).1.length ∧
          h0.length ≤ (deepcopy (n + 1) h a).2 := by
      intro h0 h a hF
      simp only [deepcopy]
      cases hga : h[a]? with
      | none =>
        have hal := frame_halloc h0 h (.leaf "") hF (by intro k p hm; simp [kidsOf] at hm)
        exact ⟨hal.1, hal.2.2, hal.2.1⟩
      | some o =>
        cases o with
        | leaf v =>
          have hal := frame_halloc h0 h (.leaf v) hF (by intro k p hm; simp [kidsOf] at hm)
          exact ⟨hal.1, hal.2.2, hal.2.1⟩
        | node kids =>
          have hK := ih.2 h0 kids h hF
          have hal := frame_halloc h0 (deepcopyKids n h kids).1
            (.node (deepcopyKids n h kids).2) hK.1
            (by intro k p hm; exact hK.2.2 k p (by simpa [kidsOf] using hm))
          exact ⟨hal.1, le_trans hK.2.1 hal.2.2, hal.2.1⟩
    refine ⟨hA, ?_⟩
    intro h0 l
    induction l with
    | nil =>
      intro h hF
      simp only [deepcopyKids]
      exact ⟨hF, le_rfl, by simp⟩
    | cons q rest ihl =>
      obtain ⟨k, a⟩ := q
      intro h hF
      have h1 := hA h0 h a hF
      have h2 := ihl (deepcopy (n + 1) h a).1 h1.1
      simp only [deepcopyKids]
      refine ⟨h2.1, le_trans h1.2.1 h2.2.1, ?_⟩
      intro k' p hmem
      rcases List.mem_cons.mp hmem with heq | hmem'
      · obtain ⟨-, h4⟩ := Prod.mk.injEq .. ▸ heq
        exact h4 ▸ h1.2.2
      · exact h2.2.2 k' p hmem'

theorem frame_deepcopy (fuel : Nat) (h0 h : Heap) (a : Nat) (hF : Frame h0 h) :
    Frame h0 (deepcopy fuel h a).1 ∧ h.length ≤ (deepcopy fuel h a).1.length ∧
      h0.length ≤ (deepcopy fuel h a).2 :=
  (frame_deepcopy_all fuel).1 h0 h a hF

theorem frame_allocTree_all : ∀ n,
    (∀ t : HTree, sizeOf t ≤ n → ∀ h0 h, Frame h0 h →
      Frame h0 (allocTree h t).1 ∧ h.length ≤ (allocTree h t).1.length ∧
        h0.length ≤ (allocTree h t).2) ∧
    (∀ l : List (String × HTree), sizeOf l ≤ n → ∀ h0 h, Frame h0 h →
      Frame h0 (allocTreeKids h l).1 ∧ h.length ≤ (allocTreeKids h l).1.length ∧
        ∀ k p, (k, p) ∈ (allocTreeKids h l).2 → h0.length ≤ p) := by
  intro n
  induction n with
  | zero =>
    constructor
    · intro t ht
      exfalso
      cases t <;> simp at ht
    · intro l hl
      exfalso
      cases l <;> simp at hl
  | succ n ih =>
    constructor
    · intro t ht h0 h hF
      cases t with
      | hleaf v =>
        simp only [allocTree]
        have hal := frame_halloc h0 h (.leaf v) hF (by intro k p hm; simp [kidsOf] at hm)
        exact ⟨hal.1, hal.2.2, hal.2.1⟩
      | hnode kids =>
        simp only [HTree.hnode.sizeOf_spec] at ht
        have hK := ih.2 kids (by omega) h0 h hF
        simp only [allocTree]
        have hal := frame_halloc h0 (allocTreeKids h kids).1
          (.node (allocTreeKids h kids).2) hK.1
          (by intro k p hm; exact hK.2.2 k p (by simpa [kidsOf] using hm))
        exact ⟨hal.1, le_trans hK.2.1 hal.2.2, hal.2.1⟩
    · intro l hl h0 h hF
      cases l with
      | nil =>
        simp only [allocTreeKids]
        exact ⟨hF, le_rfl, by simp⟩
      | cons q rest =>
        obtain ⟨k, t⟩ := q
        simp only [List.cons.sizeOf_spec, Prod.mk.sizeOf_spec] at hl
        have h1 := ih.1 t (by omega) h0 h hF
        have h2 := ih.2 rest (by omega) h0 (allocTree h t).1 h1.1
        simp only [allocTreeKids]
        refine ⟨h2.1, le_trans h1.2.1 h2.2.1, ?_⟩
        intro k' p hmem
        rcases List.mem_cons.mp hmem with heq | hmem'
        · obtain ⟨-, h4⟩ := Prod.mk.injEq .. ▸ heq
          exact h4 ▸ h1.2.2
        · exact h2.2.2 k' p hmem'

theorem frame_allocTree (t : HTree) (h0 h : Heap) (hF : Frame h0 h) :
    Frame h0 (allocTree h t).1 ∧ h.length ≤ (allocTree h t).1.length ∧
      h0.length ≤ (allocTree h t).2 :=
  (frame_allocTree_all (sizeOf t)).1 t le_rfl h0 h hF

end X2J

namespace X2J

/-- Assign a freshly allocated scalar to field `k` of the object at `a`. -/
def setLeaf (h : Heap) (a : Nat) (k v : String) : Heap :=
  let r := halloc h (.leaf v)
  hset r.1 a k r.2

/-- Conditional scalar assignment (`if param is not None: ... = value`). -/
def setLeafOpt (h : Heap) (a : Nat) (k : String) : Option String → Heap
  | some v => setLeaf h a k v
  | none => h

/-- Assign a freshly allocated structure to field `k` of the object at `a`. -/
def setTree (h : Heap) (a : Nat) (k : String) (t : HTree) : Heap :=
  let r := allocTree h t
  hset r.1 a k r.2

/-- `infra.get("sources", [])` when infrastructure loaded, else `[]` — a
fresh structure either way. -/
def allocSources (h : Heap) : Option HTree → Heap × Nat
  | some t => allocTree h t
  | none => halloc h (.node [])

/-- `deepcopy(template.get(...))`: deep-copy the found sub-object, or
allocate the default fresh object when the key path is missing. -/
def copyFrom (fuel : Nat) (h : Heap) (dflt : HObj) : Option Nat → Heap × Nat
  | some a => deepcopy fuel h a
  | none => halloc h dflt

/-- The `idPrise`/`typeChargeur`/`typePrise` block of `map_record`: with
infrastructure and a drawn plug, write the plug id, optionally the charger
model inside `vehicule["typeChargeur"][0]`, and the plug type; without
infrastructure but with a vehicle id, write the synthesized plug id. -/
def setPriseBlock (h : Heap) (v : Nat)
    (prise : Option (String × Option String × String)) (newId : Option String) : Heap :=
  match prise with
  | some pr =>
    let ha := setLeaf h v "idPrise" pr.1
    let hb := match pr.2.1 with
      | some modele =>
        match hgetKid ha v "typeChargeur" with
        | some tc =>
          match hgetKid ha tc "0" with
          | some tc0 => setLeaf ha tc0 "modeleChargeur" modele
          | none => ha
        | none => ha
      | none => ha
    setLeaf hb v "typePrise" pr.2.2
  | none =>
    match newId with
    | some nid => setLeaf h v "idPrise" ("TR1_CH_" ++ nid ++ "_P1")
    | none => h

theorem frame_setLeaf (h0 h : Heap) (a : Nat) (k v : String)
    (hF : Frame h0 h) (ha : h0.length ≤ a) : Frame h0 (setLeaf h a k v) := by
  have hal := frame_halloc h0 h (.leaf v) hF (by intro k' p hm; simp [kidsOf] at hm)
  exact frame_hset h0 _ a k _ hal.1 ha hal.2.1

theorem frame_setLeafOpt (h0 h : Heap) (a : Nat) (k : String) (o : Option String)
    (hF : Frame h0 h) (ha : h0.length ≤ a) : Frame h0 (setLeafOpt h a k o) := by
  cases o with
  | none => exact hF
  | some v => exact frame_setLeaf h0 h a k v hF ha

theorem frame_setTree (h0 h : Heap) (a : Nat) (k : String) (t : HTree)
    (hF : Frame h0 h) (ha : h0.length ≤ a) : Frame h0 (setTree h a k t) := by
  have hal := frame_allocTree t h0 h hF
  exact frame_hset h0 _ a k _ hal.1 ha hal.2.2

theorem frame_allocSources (h0 h : Heap) (o : Option HTree) (hF : Frame h0 h) :
    Frame h0 (allocSources h o).1 ∧ h0.length ≤ (allocSources h o).2 := by
  cases o with
  | none =>
    have hal := frame_halloc h0 h (.node []) hF (by intro k p hm; simp [kidsOf] at hm)
    exact ⟨hal.1, hal.2.1⟩
  | some t =>
    have hal := frame_allocTree t h0 h hF
    exact ⟨hal.1, hal.2.2⟩

theorem frame_copyFrom (fuel : Nat) (h0 h : Heap) (dflt : HObj) (o : Option Nat)
    (hd : ∀ k p, (k, p) ∈ kidsOf dflt → h0.length ≤ p) (hF : Frame h0 h) :
    Frame h0 (copyFrom fuel h dflt o).1 ∧ h0.length ≤ (copyFrom fuel h dflt o).2 := by
  cases o with
  | none =>
    have hal := frame_halloc h0 h dflt hF hd
    exact ⟨hal.1, hal.2.1⟩
  | some a =>
    have hc := frame_deepcopy fuel h0 h a hF
    exact ⟨hc.1, hc.2.2⟩

theorem frame_setPriseBlock (h0 h : Heap) (v : Nat)
    (prise : Option (String × Option String × String)) (newId : Option String)
    (hF : Frame h0 h) (hv : h0.length ≤ v) :
    Frame h0 (setPriseBlock h v prise newId) := by
  cases prise with
  | none =>
    cases newId with
    | none => exact hF
    | some nid => exact frame_setLeaf h0 h v "idPrise" _ hF hv
  | some pr =>
    have hFa := frame_setLeaf h0 h v "idPrise" pr.1 hF hv
    simp only [setPriseBlock]
    apply frame_setLeaf h0 _ v "typePrise" pr.2.2 _ hv
    cases pr.2.1 with
    | none => exact hFa
    | some modele =>
      simp only
      cases htc : hgetKid (setLeaf h v "idPrise" pr.1) v "typeChargeur" with
      | none => exact hFa
      | some tc =>
        dsimp only
        have htcb := hgetKid_fresh h0 _ v "typeChargeur" tc hFa hv htc
        cases htc0 : hgetKid (setLeaf h v "idPrise" pr.1) tc "0" with
        | none => exact hFa
        | some tc0 =>
          dsimp only
          have htc0b := hgetKid_fresh h0 _ tc "0" tc0 hFa htcb htc0
          exact frame_setLeaf h0 _ tc0 "modeleChargeur" modele hFa htc0b

end X2J

namespace X2J

/-- `template.get("vehicules", [{}])[0]`: the address of the template's first
vehicle prototype, when present. -/
def vehTemplateAddr (h : Heap) (template : Nat) : Option Nat :=
  match hgetKid h template "vehicules" with
  | some vl => hgetKid h vl "0"
  | none => none

/-- The mutation skeleton of `mapper.map_record` over the explicit heap:
`data = deepcopy(template)`, `configuration = deepcopy(template["configuration"])`,
`vehicule = deepcopy(template["vehicules"][0])`, followed by the field
assignments of the configuration, sources and vehicle blocks, in source
order.  Scalar values (already-computed strings/numbers) are abstracted as
opaque leaf payloads, freshly parsed structures (infrastructure sources,
battery profile, the `axeOptimDegrade` list) as fresh trees, and each
conditional assignment's condition as an `Option` parameter.  Returns the
final heap and the address of the produced document. -/
def map_record_heap (fuel : Nat) (h0 : Heap) (template : Nat)
    (choixOptim : String)
    (activationRendement : Option String)
    (axeOptimDegrade : HTree)
    (diminutionSoc pasDeTemps : Option String)
    (maximumExecTemps : String)
    (debutOptim finOptim : Option String)
    (infraSources : Option HTree)
    (prise : Option (String × Option String × String))
    (newId : Option String)
    (capacite : String)
    (profil : HTree)
    (socVal socCible : String)
    (dureeService : Option String)
    (finService : String)
    (debutService : Option String)
    (libelle : String) : Heap × Nat :=
  let rd := deepcopy fuel h0 template
  let h1 := rd.1
  let d := rd.2
  let h2 := setLeaf h1 d "choix_optim" choixOptim
  let rc := copyFrom fuel h2 (.leaf "") (hgetKid h2 template "configuration")
  let h3 := rc.1
  let c := rc.2
  let h4 := setLeafOpt h3 c "activationRendement" activationRendement
  let h5 := setTree h4 c "axeOptimDegrade" axeOptimDegrade
  let h6 := setLeafOpt h5 c "diminutionSOC" diminutionSoc
  let h7 := setLeafOpt h6 c "pasDeTemps" pasDeTemps
  let h8 := setLeaf h7 c "maximumExecTemps" maximumExecTemps
  let h9 := setLeafOpt h8 c "debutOptim" debutOptim
  let h10 := setLeafOpt h9 c "finOptim" finOptim
  let h11 := hset h10 d "configuration" c
  let rs := allocSources h11 infraSources
  let h12 := hset rs.1 d "sources" rs.2
  let rv := copyFrom fuel h12 (.node []) (vehTemplateAddr h12 template)
  let h13 := rv.1
  let v := rv.2
  let h14 := setLeaf h13 v "capaciteBatterie" capacite
  let h15 := setLeaf h14 v "idPrise" ""
  let h16 := setPriseBlock h15 v prise newId
  let h17 := setLeaf h16 v "modeBoost" "0"
  let h18 := setTree h17 v "profilBatterie" profil
  let h19 := setLeaf h18 v "soc" socVal
  let h20 := setLeaf h19 v "socCible" socCible
  let h21 := setLeafOpt h20 v "dureeService" dureeService
  let h22 := setLeaf h21 v "finService" finService
  let h23 := setLeafOpt h22 v "debutService" debutService
  let h24 := setLeafOpt h23 v "id" newId
  let h25 := setLeaf h24 v "libelle" libelle
  let rveh := halloc h25 (.node [("0", v)])
  let h26 := hset rveh.1 d "vehicules" rveh.2
  (h26, d)

/-- C9: one call of the record mapper leaves every pre-existing heap address
— in particular the entire template object graph, at any nesting depth —
exactly as it was: the mapper only reads the template, deep-copies it, and
mutates fresh addresses. -/
theorem map_record_frame (fuel : Nat) (h0 : Heap) (template : Nat)
    (choixOptim : String) (activationRendement : Option String)
    (axeOptimDegrade : HTree) (diminutionSoc pasDeTemps : Option String)
    (maximumExecTemps : String) (debutOptim finOptim : Option String)
    (infraSources : Option HTree) (prise : Option (String × Option String × String))
    (newId : Option String) (capacite : String) (profil : HTree)
    (socVal socCible : String) (dureeService : Option String)
    (finService : String) (debutService : Option String) (libelle : String)
    (i : Nat) (hi : i < h0.length) :
    (map_record_heap fuel h0 template choixOptim activationRendement axeOptimDegrade
        diminutionSoc pasDeTemps maximumExecTemps debutOptim finOptim infraSources
        prise newId capacite profil socVal socCible dureeService finService
        debutService libelle).1[i]? = h0[i]? := by
  suffices h : Frame h0 (map_record_heap fuel h0 template choixOptim activationRendement
      axeOptimDegrade diminutionSoc pasDeTemps maximumExecTemps debutOptim finOptim
      infraSources prise newId capacite profil socVal socCible dureeService finService
      debutService libelle).1 from h.2.1 i hi
  simp only [map_record_heap]
  have F1 := frame_deepcopy fuel h0 h0 template (frame_refl h0)
  set h1 : Heap := (deepcopy fuel h0 template).1
  set d : Nat := (deepcopy fuel h0 template).2
  have hd : h0.length ≤ d := F1.2.2
  have F2 := frame_setLeaf h0 h1 d "choix_optim" choixOptim F1.1 hd
  set h2 : Heap := setLeaf h1 d "choix_optim" choixOptim
  have F3 := frame_copyFrom fuel h0 h2 (.leaf "") (hgetKid h2 template "configuration")
    (by intro k p hm; simp [kidsOf] at hm) F2
  set h3 : Heap := (copyFrom fuel h2 (.leaf "") (hgetKid h2 template "configuration")).1
  set c : Nat := (copyFrom fuel h2 (.leaf "") (hgetKid h2 template "configuration")).2
  have hc : h0.length ≤ c := F3.2
  have F4 := frame_setLeafOpt h0 h3 c "activationRendement" activationRendement F3.1 hc
  set h4 : Heap := setLeafOpt h3 c "activationRendement" activationRendement
  have F5 := frame_setTree h0 h4 c "axeOptimDegrade" axeOptimDegrade F4 hc
  set h5 : Heap := setTree h4 c "axeOptimDegrade" axeOptimDegrade
  have F6 := frame_setLeafOpt h0 h5 c "diminutionSOC" diminutionSoc F5 hc
  set h6 : Heap := setLeafOpt h5 c "diminutionSOC" diminutionSoc
  have F7 := frame_setLeafOpt h0 h6 c "pasDeTemps" pasDeTemps F6 hc
  set h7 : Heap := setLeafOpt h6 c "pasDeTemps" pasDeTemps
  have F8 := frame_setLeaf h0 h7 c "maximumExecTemps" maximumExecTemps F7 hc
  set h8 : Heap := setLeaf h7 c "maximumExecTemps" maximumExecTemps
  have F9 := frame_setLeafOpt h0 h8 c "debutOptim" debutOptim F8 hc
  set h9 : Heap := setLeafOpt h8 c "debutOptim" debutOptim
  have F10 := frame_setLeafOpt h0 h9 c "finOptim" finOptim F9 hc
  set h10 : Heap := setLeafOpt h9 c "finOptim" finOptim
  have F11 := frame_hset h0 h10 d "configuration" c F10 hd hc
  set h11 : Heap := hset h10 d "configuration" c
  have FS := frame_allocSources h0 h11 infraSources F11
  have F12 := frame_hset h0 (allocSources h11 infraSources).1 d "sources"
    (allocSources h11 infraSources).2 FS.1 hd FS.2
  set h12 : Heap := hset (allocSources h11 infraSources).1 d "sources"
    (allocSources h11 infraSources).2
  have FV := frame_copyFrom fuel h0 h12 (.node []) (vehTemplateAddr h12 template)
    (by intro k p hm; simp [kidsOf] at hm) F12
  set h13 : Heap := (copyFrom fuel h12 (.node []) (vehTemplateAddr h12 template)).1
  set v : Nat := (copyFrom fuel h12 (.node []) (vehTemplateAddr h12 template)).2
  have hv : h0.length ≤ v := FV.2
  have F14 := frame_setLeaf h0 h13 v "capaciteBatterie" capacite FV.1 hv
  set h14 : Heap := setLeaf h13 v "capaciteBatterie" capacite
  have F15 := frame_setLeaf h0 h14 v "idPrise" "" F14 hv
  set h15 : Heap := setLeaf h14 v "idPrise" ""
  have F16 := frame_setPriseBlock h0 h15 v prise newId F15 hv
  set h16 : Heap := setPriseBlock h15 v prise newId
  have F17 := frame_setLeaf h0 h16 v "modeBoost" "0" F16 hv
  set h17 : Heap := setLeaf h16 v "modeBoost" "0"
  have F18 := frame_setTree h0 h17 v "profilBatterie" profil F17 hv
  set h18 : Heap := setTree h17 v "profilBatterie" profil
  have F19 := frame_setLeaf h0 h18 v "soc" socVal F18 hv
  set h19 : Heap := setLeaf h18 v "soc" socVal
  have F20 := frame_setLeaf h0 h19 v "socCible" socCible F19 hv
  set h20 : Heap := setLeaf h19 v "socCible" socCible
  have F21 := frame_setLeafOpt h0 h20 v "dureeService" dureeService F20 hv
  set h21 : Heap := setLeafOpt h20 v "dureeService" dureeService
  have F22 := frame_setLeaf h0 h21 v "finService" finService F21 hv
  set h22 : Heap := setLeaf h21 v "finService" finService
  have F23 := frame_setLeafOpt h0 h22 v "debutService" debutService F22 hv
  set h23 : Heap := setLeafOpt h22 v "debutService" debutService
  have F24 := frame_setLeafOpt h0 h23 v "id" newId F23 hv
  set h24 : Heap := setLeafOpt h23 v "id" newId
  have F25 := frame_setLeaf h0 h24 v "libelle" libelle F24 hv
  set h25 : Heap := setLeaf h24 v "libelle" libelle
  have FA := frame_halloc h0 h25 (.node [("0", v)]) F25
    (by
      intro k p hm
      simp only [kidsOf, List.mem_singleton, Prod.mk.injEq] at hm
      exact hm.2 ▸ hv)
  exact frame_hset h0 (halloc h25 (.node [("0", v)])).1 d "vehicules"
    (halloc h25 (.node [("0", v)])).2 FA.1 hd FA.2.1

/-- Witness for C9 at a concrete four-object heap holding a template with a
configuration and one vehicle prototype: address 0 (the template root) is
unchanged by the call. -/
theorem map_record_frame_witness :
    (0 < ([.node [("configuration", 1), ("vehicules", 2)], .node [],
        .node [("0", 3)], .node []] : Heap).length) ∧
    (map_record_heap 10
        [.node [("configuration", 1), ("vehicules", 2)], .node [],
          .node [("0", 3)], .node []] 0
        "co" (some "true") (.hnode []) (some "5") none "10" (some "s") (some "e")
        none none (some "V1") "950" (.hnode []) "42" "80" (some "7") "f"
        (some "ds") "lib").1[0]? =
      ([.node [("configuration", 1), ("vehicules", 2)], .node [],
        .node [("0", 3)], .node []] : Heap)[0]? :=
  ⟨by decide,
    map_record_frame 10
      [.node [("configuration", 1), ("vehicules", 2)], .node [],
        .node [("0", 3)], .node []] 0
      "co" (some "true") (.hnode []) (some "5") none "10" (some "s") (some "e")
      none none (some "V1") "950" (.hnode []) "42" "80" (some "7") "f"
      (some "ds") "lib" 0 (by decide)⟩

end X2J

namespace X2J

/-- Witness for C5: the window `[1, 4]` strictly contains `[2, 3]` and the
validator returns normally there. -/
theorem validate_optim_dates_iff_witness :
    ((1 : Int) < 2 ∧ (4 : Int) > 3) ∧ validate_optim_dates 1 4 2 3 = .ok () :=
  ⟨⟨by decide, by decide⟩, (validate_optim_dates_iff 1 4 2 3).2 ⟨by decide, by decide⟩⟩

/-- Witness for C7: both branches applied at concrete inputs — a next-service
timestamp minus 25 minutes, and the configured fallback recomputed from
`finOptim`. -/
theorem mapRecord_debutService_spec_witness :
    mapRecord_debutService (some 0) (some 20) (some 5) (some "x") 0 "tmpl" =
      isoformat_z (0 - (Option.getD (some 20) 0 + Option.getD (some 5) 0) * usPerMin) ∧
    mapRecord_debutService none (some 20) (some 5) (some "2050-01-01") 12345 "tmpl" =
      isoformat_z (12345 + 129600 * usPerSec) :=
  ⟨(mapRecord_debutService_spec (some 20) (some 5) 0 "tmpl").1 (some "x") 0,
    (mapRecord_debutService_spec (some 20) (some 5) 12345 "tmpl").2.1 "2050-01-01"⟩

end X2J
